import Mathlib

/-!
Shallow embedding of the drmd Markdown-to-HTML converter (src/drmd.c).

The input buffer is modelled as a list of bytes (`List Nat`); positions in the
buffer are natural-number indices.  The node arena is a list of nodes indexed
by allocation order, children are stored as lists of indices, mirroring the
handle-based arena of the C source.  The block parser is a fuel-driven loop
over lines (the C loop advances the cursor strictly on every iteration, so
`input.length + 1` fuel always suffices), and the renderer mirrors the
depth-capped recursive walk, carrying both the C `node_depth` counter and a
structural fuel that makes the recursion well-founded.
-/

set_option maxRecDepth 20000

/-- Byte at position `i` of the input; out-of-range reads yield 0 (the C code
never reads out of range on the paths modelled here). -/
def byteAt (input : List Nat) (i : Nat) : Nat := input.getD i 0

/-- The slice `input[start .. start+len)` as a byte list. -/
def byteSlice (input : List Nat) (start len : Nat) : List Nat :=
  (input.drop start).take len

/-- Whitespace set of `stripped_view` in drmd.c: space, tab, CR, LF, FF, VT. -/
def isStripWs (c : Nat) : Bool :=
  c == 32 || c == 9 || c == 13 || c == 10 || c == 12 || c == 11

/-- drmd.c `stripped_view`: strip leading then trailing whitespace from a
byte run (given by start index and length into the input). -/
def stripped_view (input : List Nat) (start len : Nat) : List Nat :=
  let l := (byteSlice input start len).dropWhile isStripWs
  (l.reverse.dropWhile isStripWs).reverse

/-- Leading-whitespace set of `analyze_line`: space, tab, CR. -/
def isLineWs (c : Nat) : Bool := c == 32 || c == 9 || c == 13

/-- Bytes that do not terminate a line (a line ends at a newline, a NUL byte,
or the end of the input). -/
def isNotEol (c : Nat) : Bool := c != 10 && c != 0

/-- `analyze_line` (scalar path; the three SIMD paths in drmd.c compute the
same classification): count of leading characters in space/tab/CR starting at
the cursor. -/
def nspacesAt (input : List Nat) (cursor : Nat) : Nat :=
  ((input.drop cursor).takeWhile isLineWs).length

/-- `analyze_line`: position of the line terminator — the first newline or NUL
at or after the end of the leading whitespace, or the end of the input. -/
def lineEndAt (input : List Nat) (cursor : Nat) : Nat :=
  cursor + nspacesAt input cursor +
    (((input.drop cursor).dropWhile isLineWs).takeWhile isNotEol).length

/-- `analyze_line` as a pair: `(nspaces, line_end)`; `line_start` is the
cursor itself. -/
def analyze_line (input : List Nat) (cursor : Nat) : Nat × Nat :=
  (nspacesAt input cursor, lineEndAt input cursor)

/-- drmd.c `advance_row`: move the cursor past the line terminator, except
when the line ends at the very end of the input. -/
def advance_row (len lineEnd : Nat) : Nat :=
  if lineEnd = len then lineEnd else lineEnd + 1

/-- Node kinds of drmd.c (`NODETYPES`). -/
inductive NodeType where
  | INVALID | MD | STRING | PARA | TABLE | TABLE_ROW
  | BULLETS | LIST | LIST_ITEM | QUOTE | PRE | H
  deriving DecidableEq, Repr

/-- A parse node.  `header` holds the borrowed text for `STRING`/`H` nodes
(materialized here as the byte list), `children` the child node indices.  In
the C struct `children` and `heading_level` share a union; `H` nodes never
receive children and only `H` nodes use `heading_level`, so separate fields
are faithful. -/
structure Node where
  type : NodeType
  header : List Nat
  children : List Nat
  heading_level : Nat
  deriving DecidableEq, Repr

def invalidNode : Node := ⟨.INVALID, [], [], 0⟩

/-- The node arena (`DrMdContext.nodes`). -/
structure DrMdContext where
  nodes : List Node
  deriving DecidableEq, Repr

/-- `get_node`: index into the arena (C asserts in-range; modelled reads on
reachable paths are always in range). -/
def get_node (ctx : DrMdContext) (i : Nat) : Node := ctx.nodes.getD i invalidNode

/-- `alloc_handle_`: append a fresh default node of the given type, returning
the new context and the node's index. -/
def allocNode (ctx : DrMdContext) (ty : NodeType) : DrMdContext × Nat :=
  (⟨ctx.nodes ++ [⟨ty, [], [], 0⟩]⟩, ctx.nodes.length)

/-- `append_child_`: push a child index onto a parent's child list. -/
def appendChild (ctx : DrMdContext) (parent child : Nat) : DrMdContext :=
  let n := get_node ctx parent
  ⟨ctx.nodes.set parent { n with children := n.children ++ [child] }⟩

/-- `append_node`: allocate a node of type `ty` and link it under `parent`. -/
def append_node (ctx : DrMdContext) (parent : Nat) (ty : NodeType) :
    DrMdContext × Nat :=
  let (ctx1, idx) := allocNode ctx ty
  (appendChild ctx1 parent idx, idx)

/-- `append_string`: allocate a `STRING` node with the given text and link it
under `parent`. -/
def append_string (ctx : DrMdContext) (parent : Nat) (sv : List Nat) :
    DrMdContext × Nat :=
  let idx := ctx.nodes.length
  let ctx1 : DrMdContext := ⟨ctx.nodes ++ [⟨.STRING, sv, [], 0⟩]⟩
  (appendChild ctx1 parent idx, idx)

/-- Overwrite the heading data of a node (the parser sets `heading_level` and
`header` on a freshly appended `H` node). -/
def setHeading (ctx : DrMdContext) (i : Nat) (level : Nat) (header : List Nat) :
    DrMdContext :=
  let n := get_node ctx i
  ⟨ctx.nodes.set i { n with heading_level := level, header := header }⟩

/-- One-byte-per-step core of drmd.c `write_link_escaped_str_slow`.  The C
loop index with its `memcmp` lookaheads and index skips is modelled by
prefix tests (`take k = bytes`) and suffix drops; each branch consumes
exactly the bytes the C code consumes.  The structural fuel decreases by one
per emitted chunk while at least one input byte is consumed, so fuel equal
to the input length never runs out. -/
def escBody (rec : List Nat -> List Nat) (c : Nat) (r : List Nat) : List Nat :=
  if c = 45 then
    if r.take 2 = [45, 45] then
      [38, 109, 100, 97, 115, 104, 59] ++ rec (r.drop 2)
    else if r.take 1 = [45] then
      [38, 110, 100, 97, 115, 104, 59] ++ rec (r.drop 1)
    else 45 :: rec r
  else if c = 38 then
    if r.take 3 = [108, 116, 59] then
      [38, 108, 116, 59] ++ rec (r.drop 3)
    else if r.take 3 = [103, 116, 59] then
      [38, 103, 116, 59] ++ rec (r.drop 3)
    else [38, 97, 109, 112, 59] ++ rec r
  else if c = 60 then
    if r.take 5 = [99, 111, 100, 101, 62] then
      [60, 99, 111, 100, 101, 62] ++ rec (r.drop 5)
    else if r.take 3 = [104, 114, 62] then
      [60, 104, 114, 62] ++ rec (r.drop 3)
    else if r.take 6 = [47, 99, 111, 100, 101, 62] then
      [60, 47, 99, 111, 100, 101, 62] ++ rec (r.drop 6)
    else if r.take 4 = [47, 116, 116, 62] then
      [60, 47, 116, 116, 62] ++ rec (r.drop 4)
    else if r.take 3 = [116, 116, 62] then
      [60, 116, 116, 62] ++ rec (r.drop 3)
    else if r.take 3 = [98, 114, 62] then
      [60, 98, 114, 62] ++ rec (r.drop 3)
    else if r.take 2 = [98, 62] then [60, 98, 62] ++ rec (r.drop 2)
    else if r.take 2 = [115, 62] then [60, 115, 62] ++ rec (r.drop 2)
    else if r.take 2 = [105, 62] then [60, 105, 62] ++ rec (r.drop 2)
    else if r.take 2 = [117, 62] then [60, 117, 62] ++ rec (r.drop 2)
    else if r.take 3 = [47, 98, 62] then
      [60, 47, 98, 62] ++ rec (r.drop 3)
    else if r.take 3 = [47, 115, 62] then
      [60, 47, 115, 62] ++ rec (r.drop 3)
    else if r.take 3 = [47, 105, 62] then
      [60, 47, 105, 62] ++ rec (r.drop 3)
    else if r.take 3 = [47, 117, 62] then
      [60, 47, 117, 62] ++ rec (r.drop 3)
    else [38, 108, 116, 59] ++ rec r
  else if c = 62 then [38, 103, 116, 59] ++ rec r
  else if c = 13 then 32 :: rec r
  else if c = 12 then 32 :: rec r
  else if c < 32 && c != 9 then rec r
  else c :: rec r

/-- The fuel-driven scalar loop: one `escBody` step per input byte. -/
def escSlowF : Nat -> List Nat -> List Nat
  | 0, _ => []
  | _ + 1, [] => []
  | fuel + 1, c :: r => escBody (escSlowF fuel) c r

/-- drmd.c `write_link_escaped_str_slow`: the scalar escape writer. -/
def write_link_escaped_str_slow (t : List Nat) : List Nat :=
  escSlowF t.length t

/-- Hit predicate of the x86 vector scan: the five special characters plus
`_mm_cmplt_epi8(data, 32)`, a signed comparison, so bytes 128..255 also
register as hits (and merely fall back to the scalar path). -/
def hitX86 (c : Nat) : Bool :=
  c == 91 || c == 45 || c == 60 || c == 62 || c == 38 || c < 32 || 128 ≤ c

/-- Hit predicate of the NEON vector scan: `vcltq_u8` is unsigned, so only
true control bytes below 32 are hits. -/
def hitNeon (c : Nat) : Bool :=
  c == 91 || c == 45 || c == 60 || c == 62 || c == 38 || c < 32

/-- Hit predicate of the WASM vector scan as written: `wasm_i8x16_eq(data,
control)` tests equality with 32, so a space is a hit and control bytes are
not. -/
def hitWasm (c : Nat) : Bool :=
  c == 91 || c == 45 || c == 60 || c == 62 || c == 38 || c == 32

/-- The 16-byte-at-a-time vector loop of `write_link_escaped_str`,
parameterized by the per-lane hit predicate: blocks with no hit are copied
verbatim, the remainder goes to the scalar writer.  Each iteration consumes
16 bytes, so `text.length` fuel always suffices. -/
def escVec (hit : Nat → Bool) : Nat → List Nat → List Nat
  | 0, text => write_link_escaped_str_slow text
  | fuel + 1, text =>
    if 16 ≤ text.length && (text.take 16).all (fun c => !hit c) then
      text.take 16 ++ escVec hit fuel (text.drop 16)
    else
      write_link_escaped_str_slow text

/-- drmd.c `write_link_escaped_str` (x86 build): vector prefix loop, scalar
remainder. -/
def write_link_escaped_str (text : List Nat) : List Nat :=
  escVec hitX86 text.length text

/-- Parser states (`enum MDSTATE` in `parse_md_node`). -/
inductive MState where
  | NONE | PARA | BULLET | LIST | TABLE | QUOTE
  deriving DecidableEq, Repr

/-- One entry of the bounded list-nesting stack (`struct StackItem`). -/
structure Frame where
  list : Nat
  item : Nat
  indentation : Nat
  fstate : MState
  deriving DecidableEq, Repr

/-- The candidate block kind of a line, as selected by the first
non-whitespace byte (the `switch(*firstchar)` of `parse_md_node`).  `bullet`
and `listk` carry the consumed prefix length. -/
inductive LineKind where
  | bullet (prefixLen : Nat)
  | heading
  | listk (prefixLen : Nat)
  | para
  | pre
  | table
  | quote
  deriving DecidableEq, Repr

/-- The digit arm of the candidate dispatch: scan digits after the first
one; a following dot makes an ordered-list line with prefix `digits + dot`,
anything else (or end of input) keeps the line a paragraph. -/
def digitDispatch (input : List Nat) (fc len : Nat) : LineKind :=
  let ds := ((input.drop (fc+1)).takeWhile (fun c => 48 ≤ c && c ≤ 57)).length
  if fc + 1 + ds < len && byteAt input (fc + 1 + ds) == 46
  then .listk (1 + ds + 1) else .para

/-- Candidate-kind dispatch on the first non-whitespace byte of the current
line (`fc = cursor + nspaces`), mirroring the C switch arm by arm. -/
def lineKind (input : List Nat) (cursor ns le : Nat) : LineKind :=
  let len := input.length
  let fc := cursor + ns
  match byteAt input fc with
  | 226 =>
    if fc + 3 < len && byteAt input (fc+1) == 128 && byteAt input (fc+2) == 162
        && byteAt input (fc+3) == 32 then .bullet 4 else .para
  | 43 => if fc + 1 ≠ len && byteAt input (fc+1) == 32 then .bullet 1 else .para
  | 45 => if fc + 1 ≠ len && byteAt input (fc+1) == 32 then .bullet 1 else .para
  | 42 => if fc + 1 ≠ len && byteAt input (fc+1) == 32 then .bullet 1 else .para
  | 111 => if fc + 1 ≠ len && byteAt input (fc+1) == 32 then .bullet 1 else .para
  | 35 => .heading
  | 48 => digitDispatch input fc len
  | 49 => digitDispatch input fc len
  | 50 => digitDispatch input fc len
  | 51 => digitDispatch input fc len
  | 52 => digitDispatch input fc len
  | 53 => digitDispatch input fc len
  | 54 => digitDispatch input fc len
  | 55 => digitDispatch input fc len
  | 56 => digitDispatch input fc len
  | 57 => digitDispatch input fc len
  | 96 =>
    if le - fc == 3 && byteAt input (fc+1) == 96 && byteAt input (fc+2) == 96
    then .pre else .para
  | 124 => .table
  | 62 => .quote
  | _ => .para

/-- Number of consecutive `#` bytes starting at position `pos` (the heading
arm counts the whole run). -/
def hashRun (input : List Nat) (pos : Nat) : Nat :=
  ((input.drop pos).takeWhile (fun c => c == 35)).length

/-- Mutable parser state threaded through the line loop of
`parse_md_node`: the arena, the cursor, the block state, the list-frame
stack (top frame first; `si = stack.length - 1`), the continuation
container, and `normal_indent` (`none` encodes the initial -1). -/
structure ParseState where
  ctx : DrMdContext
  cursor : Nat
  state : MState
  stack : List Frame
  container : Nat
  normalIndent : Option Nat
  deriving DecidableEq, Repr

/-- The "go back up" loop of the list branch: starting below the popped top
frame, keep popping while the frame indentation is greater than the line's;
`some` returns the stack with the equal-indentation frame on top, `none`
means no frame matched (ran off the bottom, or hit one with smaller
indentation) and a fresh top-level list must be started. -/
def popFrames (ns : Nat) : List Frame → Option (Frame × List Frame)
  | [] => none
  | f :: rest =>
    if ns < f.indentation then popFrames ns rest
    else if f.indentation = ns then some (f, rest)
    else none

/-- The fenced-code inner loop: consume raw lines into the `PRE` node until a
closing fence line (a line of exactly three bytes after indentation whose
second and third bytes are backquotes) or end of input.  Each iteration
advances the cursor, so `input.length + 1` fuel always suffices. -/
def parsePre (input : List Nat) : Nat → DrMdContext → Nat → Nat →
    DrMdContext × Nat
  | 0, ctx, _, cursor => (ctx, cursor)
  | fuel + 1, ctx, preIdx, cursor =>
    if cursor = input.length then (ctx, cursor)
    else
      let ns := nspacesAt input cursor
      let le := lineEndAt input cursor
      let fc := cursor + ns
      if le - fc == 3 && byteAt input (fc+1) == 96 && byteAt input (fc+2) == 96
      then (ctx, advance_row input.length le)
      else
        let ctx1 := (append_string ctx preIdx (byteSlice input cursor (le - cursor))).1
        parsePre input fuel ctx1 preIdx (advance_row input.length le)

/-- The table-cell split loop: starting after the leading `|`, emit the run
up to each further `|` (stripped) as a `STRING` cell of the row, and the
final run up to the line end.  Each iteration advances `p` past a `|`, so
`le - p + 1` fuel always suffices. -/
def tableCells (input : List Nat) : Nat → DrMdContext → Nat → Nat → Nat →
    DrMdContext
  | 0, ctx, _, _, _ => ctx
  | fuel + 1, ctx, rowIdx, p, le =>
    match (byteSlice input p (le - p)).findIdx? (fun c => c == 124) with
    | none => (append_string ctx rowIdx (stripped_view input p (le - p))).1
    | some rel =>
      let ctx1 := (append_string ctx rowIdx (stripped_view input p rel)).1
      tableCells input fuel ctx1 rowIdx (p + rel + 1) le

/-- Sentinel for `INVALID_NODE_HANDLE` (never dereferenced on reachable
paths; arena accesses through it are out of range and act as no-ops). -/
def invalidHandle : Nat := 4294967295

/-- The list branch of `parse_md_node` up to (but not including) the shared
item/content appends: resolve the frame stack for a bullet/ordered-list line
of indentation `ns`, returning the updated arena and stack (top first), or
error 1 when the 16-frame stack would overflow. -/
def listResolve (ctx : DrMdContext) (parent : Nat) (b : MState) (ns : Nat)
    (stack : List Frame) : Except Int (DrMdContext × List Frame) :=
  match stack with
  | [] =>
    let (ctx1, li) := append_node ctx parent (if b = .BULLET then .BULLETS else .LIST)
    .ok (ctx1, [⟨li, invalidHandle, ns, b⟩])
  | top :: rest =>
    if ns > top.indentation then
      if stack.length = 16 then .error 1
      else
        let (ctx1, li) := append_node ctx top.item (if b = .BULLET then .BULLETS else .LIST)
        .ok (ctx1, ⟨li, invalidHandle, ns, b⟩ :: stack)
    else if ns = top.indentation then
      if top.fstate ≠ b then
        let prev := match rest with | [] => parent | r :: _ => r.item
        let (ctx1, li) := append_node ctx prev (if b = .BULLET then .BULLETS else .LIST)
        .ok (ctx1, ⟨li, invalidHandle, ns, b⟩ :: rest)
      else .ok (ctx, stack)
    else
      match popFrames ns rest with
      | none =>
        let (ctx1, li) := append_node ctx parent (if b = .BULLET then .BULLETS else .LIST)
        .ok (ctx1, [⟨li, invalidHandle, ns, b⟩])
      | some (f, rest2) =>
        if f.fstate ≠ b then
          let prev := match rest2 with | [] => parent | r :: _ => r.item
          let (ctx1, li) := append_node ctx prev (if b = .BULLET then .BULLETS else .LIST)
          .ok (ctx1, ⟨li, invalidHandle, ns, b⟩ :: rest2)
        else .ok (ctx, f :: rest2)

/-- Shared tail of the bullet/ordered-list branch: resolve the stack, then
append a `LIST_ITEM` to the current frame's list, record it as the frame's
item, and append the stripped post-prefix text as its first `STRING`. -/
def parseListLine (input : List Nat) (parent : Nat) (st : ParseState)
    (b : MState) (pl ns le : Nat) : Except Int ParseState :=
  match listResolve st.ctx parent b ns st.stack with
  | .error e => .error e
  | .ok (ctx1, stack1) =>
    match stack1 with
    | [] => .error 1
    | top :: rest =>
      let (ctx2, itm) := append_node ctx1 top.list .LIST_ITEM
      let content := stripped_view input (st.cursor + ns + pl)
        (le - st.cursor - ns - pl)
      let ctx3 := (append_string ctx2 itm content).1
      .ok { st with ctx := ctx3, stack := { top with item := itm } :: rest,
                    state := b, cursor := advance_row input.length le }

/-- One iteration of the line loop of `parse_md_node` (precondition:
`cursor ≠ input.length`).  Analyze the line, skip blanks, set
`normal_indent` on the first non-blank line, then dispatch on the candidate
kind exactly as the C switch and the code after its `after:` label do. -/
def parseStep (input : List Nat) (parent : Nat) (st : ParseState) :
    Except Int ParseState :=
  let len := input.length
  let ns := nspacesAt input st.cursor
  let le := lineEndAt input st.cursor
  if st.cursor + ns = le then
    .ok { st with state := .NONE, stack := [], cursor := advance_row len le }
  else
    let ni := if st.normalIndent.isNone then some ns else st.normalIndent
    match lineKind input st.cursor ns le with
    | .heading =>
      let h := hashRun input (st.cursor + ns)
      let hstart := st.cursor + ns + h
      let (ctx1, hi) := append_node st.ctx parent .H
      let ctx2 := setHeading ctx1 hi h (byteSlice input hstart (le - hstart))
      .ok { st with ctx := ctx2, state := .NONE, stack := [],
                    cursor := advance_row len le, normalIndent := ni }
    | .pre =>
      let (ctx1, preIdx) := append_node st.ctx parent .PRE
      let (ctx2, cur2) := parsePre input (len + 1) ctx1 preIdx (advance_row len le)
      .ok { st with ctx := ctx2, state := .NONE, stack := [], cursor := cur2,
                    normalIndent := ni }
    | .bullet pl =>
      parseListLine input parent { st with normalIndent := ni } .BULLET pl ns le
    | .listk pl =>
      parseListLine input parent { st with normalIndent := ni } .LIST pl ns le
    | .table =>
      let (ctx1, cont) :=
        if st.state ≠ .TABLE then append_node st.ctx parent .TABLE
        else (st.ctx, st.container)
      let (ctx2, row) := append_node ctx1 cont .TABLE_ROW
      let p0 := st.cursor + ns + 1
      let ctx3 := tableCells input (le - p0 + 1) ctx2 row p0 le
      .ok { st with ctx := ctx3, container := cont, state := .TABLE,
                    stack := [], cursor := advance_row len le, normalIndent := ni }
    | .quote =>
      let (ctx1, cont, stack1) :=
        if st.state ≠ .QUOTE then
          let (c, q) := append_node st.ctx parent .QUOTE
          (c, q, ([] : List Frame))
        else (st.ctx, st.container, st.stack)
      let ctx2 := (append_string ctx1 cont
        (stripped_view input (st.cursor + 1) (le - st.cursor - 1))).1
      .ok { st with ctx := ctx2, container := cont, state := .QUOTE,
                    stack := stack1, cursor := advance_row len le,
                    normalIndent := ni }
    | .para =>
      if st.state = .QUOTE then
        let ctx1 := (append_string st.ctx st.container
          (stripped_view input (st.cursor + ns) (le - st.cursor - ns))).1
        .ok { st with ctx := ctx1, cursor := advance_row len le,
                      normalIndent := ni }
      else if st.state = .PARA || st.state = .NONE
          || ni = some ns || st.state = .TABLE then
        let (ctx1, cont) :=
          if st.state ≠ .PARA then append_node st.ctx parent .PARA
          else (st.ctx, st.container)
        let ctx2 := (append_string ctx1 cont
          (stripped_view input (st.cursor + ns) (le - st.cursor - ns))).1
        .ok { st with ctx := ctx2, container := cont, state := .PARA,
                      stack := [], cursor := advance_row len le,
                      normalIndent := ni }
      else
        let itm := (st.stack.headD ⟨0, 0, 0, .NONE⟩).item
        let ctx1 := (append_string st.ctx itm
          (stripped_view input (st.cursor + ns) (le - st.cursor - ns))).1
        .ok { st with ctx := ctx1, cursor := advance_row len le,
                      normalIndent := ni }

/-- The line loop of `parse_md_node` (fuel-driven; every iteration strictly
advances the cursor, so `input.length + 1` fuel is always enough). -/
def parse_md_node (input : List Nat) (parent : Nat) :
    Nat → ParseState → Except Int DrMdContext
  | 0, _ => .error 1
  | fuel + 1, st =>
    if st.cursor = input.length then .ok st.ctx
    else
      match parseStep input parent st with
      | .error e => .error e
      | .ok st1 => parse_md_node input parent fuel st1

/-- Sequential rendering of a child list with per-child decorations: for each
child emit `between` (except before the first), then `before`, the child's
rendering, and `afterEach`; errors propagate in order.  `r` is the render
function for one child handle. -/
def seqRender (r : Nat → Except Int (List Nat)) (before between afterEach : List Nat) :
    Bool → List Nat → Except Int (List Nat)
  | _, [] => .ok []
  | first, h :: t =>
    match r h with
    | .error e => .error e
    | .ok o =>
      match seqRender r before between afterEach false t with
      | .error e => .error e
      | .ok rest =>
        .ok ((if first then ([] : List Nat) else between) ++ before ++ o ++
              afterEach ++ rest)

/-- drmd.c `render_node` plus the per-kind `RENDERFUNC` bodies.  `depth` is
the C `node_depth` (checked against the cap of 20 before dispatch; the bodies
render children at `depth + 1`).  `fuel` is a structural fuel making the
recursion well-founded; the top-level call passes 21, and since `depth`
grows in lockstep as `fuel` shrinks, the `fuel = 0` branch is unreachable
(the depth check fires first). -/
def render_node : Nat → DrMdContext → Nat → Nat → Except Int (List Nat)
  | 0, _, _, _ => .error 1
  | f + 1, ctx, idx, depth =>
    if depth > 20 then .error 1
    else
      let n := get_node ctx idx
      match n.type with
      | .INVALID => .error (-1)
      | .STRING => .ok (write_link_escaped_str n.header)
      | .MD =>
        seqRender (fun h => render_node f ctx h (depth+1)) [] [] [] true n.children
      | .PARA =>
        match seqRender (fun h => render_node f ctx h (depth+1)) [] [10] [] true
            n.children with
        | .error e => .error e
        | .ok s => .ok ([60, 112, 62] ++ s)
      | .BULLETS =>
        match seqRender (fun h => render_node f ctx h (depth+1)) [] [] [] true
            n.children with
        | .error e => .error e
        | .ok s => .ok ([60, 117, 108, 62, 10] ++ s ++ [60, 47, 117, 108, 62, 10])
      | .LIST =>
        match seqRender (fun h => render_node f ctx h (depth+1)) [] [] [] true
            n.children with
        | .error e => .error e
        | .ok s => .ok ([60, 111, 108, 62, 10] ++ s ++ [60, 47, 111, 108, 62, 10])
      | .LIST_ITEM =>
        match seqRender (fun h => render_node f ctx h (depth+1)) [] [32] [] true
            n.children with
        | .error e => .error e
        | .ok s => .ok ([60, 108, 105, 62] ++ s)
      | .QUOTE =>
        match seqRender (fun h => render_node f ctx h (depth+1)) [] [10] [] true
            n.children with
        | .error e => .error e
        | .ok s =>
          .ok ([60, 98, 108, 111, 99, 107, 113, 117, 111, 116, 101, 62, 10] ++ s ++
               [60, 47, 98, 108, 111, 99, 107, 113, 117, 111, 116, 101, 62, 10])
      | .PRE =>
        match seqRender (fun h => render_node f ctx h (depth+1)) [] [] [10] true
            n.children with
        | .error e => .error e
        | .ok s => .ok ([60, 112, 114, 101, 62] ++ s ++ [60, 47, 112, 114, 101, 62, 10])
      | .H =>
        let hb := (48 + n.heading_level) % 256
        .ok ([60, 104, hb, 62] ++ write_link_escaped_str n.header ++
             [60, 47, 104, hb, 62] ++ [10])
      | .TABLE =>
        match n.children with
        | [] =>
          .ok ([60, 116, 97, 98, 108, 101, 62, 10, 60, 116, 104, 101, 97, 100, 62, 10] ++
               [10, 60, 116, 98, 111, 100, 121, 62, 10] ++
               [60, 47, 116, 97, 98, 108, 101, 62, 10])
        | c0 :: rows =>
          match seqRender (fun h => render_node f ctx h (depth+1))
              [60, 116, 104, 62] [] [] true (get_node ctx c0).children with
          | .error e => .error e
          | .ok hcells =>
            match seqRender (fun h => render_node f ctx h (depth+1)) [] [] [] true
                rows with
            | .error e => .error e
            | .ok rws =>
              .ok ([60, 116, 97, 98, 108, 101, 62, 10, 60, 116, 104, 101, 97, 100, 62, 10] ++
                   ([60, 116, 114, 62, 10] ++ hcells) ++
                   [10, 60, 116, 98, 111, 100, 121, 62, 10] ++ rws ++
                   [60, 47, 116, 97, 98, 108, 101, 62, 10])
      | .TABLE_ROW =>
        match seqRender (fun h => render_node f ctx h (depth+1))
            [60, 116, 100, 62] [] [] true n.children with
        | .error e => .error e
        | .ok s => .ok ([60, 116, 114, 62] ++ s)

/-- The initial context of `drmd_to_html`: the arena holding only the root
`MD` node allocated by `alloc_handle_(&ctx, NODE_MD)` (index 0). -/
def initialCtx : DrMdContext := ⟨[⟨.MD, [], [], 0⟩]⟩

/-- The initial parser state for the single `parse_md_node(ctx, &loc, root)`
call: cursor at 0, state NONE, empty stack, invalid container, unset
`normal_indent`. -/
def initialState : ParseState :=
  { ctx := initialCtx, cursor := 0, state := .NONE, stack := [],
    container := invalidHandle, normalIndent := none }

/-- The parse half of `drmd_to_html`. -/
def drmdParse (input : List Nat) : Except Int DrMdContext :=
  parse_md_node input 0 (input.length + 1) initialState

/-- drmd.c `drmd_to_html`: parse, then render from the root at depth 0
(`render_to_html` only pre-reserves builder capacity, a no-op here).  The
result is the returned error code paired with the caller-visible output
bytes; on any error the output is untouched/empty. -/
def drmd_to_html (input : List Nat) : Int × List Nat :=
  match drmdParse input with
  | .error e => (e, [])
  | .ok ctx =>
    match render_node 21 ctx 0 0 with
    | .error e => (e, [])
    | .ok out => (0, out)

/-- Boolean prefix test used by the occurrence counter. -/
def pfx : List Nat → List Nat → Bool
  | [], _ => true
  | _ :: _, [] => false
  | a :: p, b :: l => a == b && pfx p l

/-- Number of (possibly overlapping) occurrences of the pattern `p` in `l`:
one per position of `l` at which `p` is a prefix of the remaining list. -/
def countSub (p : List Nat) : List Nat → Nat
  | [] => 0
  | c :: t => (if pfx p (c :: t) then 1 else 0) + countSub p t

theorem pfx_iff {p l : List Nat} : pfx p l = true ↔ p <+: l := by
  induction p generalizing l with
  | nil => simp [pfx]
  | cons a p ih =>
    cases l with
    | nil => simp [pfx]
    | cons b t =>
      simp [pfx, List.cons_prefix_cons, ih]

/-- No position of `l` starts an occurrence of `p`, hence the count is 0. -/
theorem countSub_eq_zero {p l : List Nat} (h : ∀ j, ¬ p <+: l.drop j) :
    countSub p l = 0 := by
  induction l with
  | nil => rfl
  | cons c t ih =>
    have h0 : ¬ pfx p (c :: t) = true := by
      intro hp; exact h 0 (pfx_iff.mp hp)
    simp only [countSub, if_neg h0, Nat.zero_add]
    exact ih (fun j => h (j + 1))

/-- `l` does not end in a nonempty proper prefix of `p` (so no occurrence of
`p` can span a boundary right after `l`). -/
def dangerFree (p l : List Nat) : Prop :=
  ∀ k, 0 < k → k < p.length → ¬ (p.take k <:+ l)

theorem prefix_of_prefix_length_le {a p l : List Nat} (h1 : a <+: l)
    (h2 : p <+: l) (hlen : a.length ≤ p.length) : a <+: p := by
  have ha := List.prefix_iff_eq_take.mp h1
  have hp := List.prefix_iff_eq_take.mp h2
  have h3 : p.take a.length = a := by
    rw [hp, List.take_take, Nat.min_eq_left hlen, ← ha]
  rw [← h3]; exact List.take_prefix _ _


/-- Occurrence counting distributes over append when the left part cannot
end in a nonempty proper prefix of the pattern. -/
theorem countSub_append {p a b : List Nat} (hdf : dangerFree p a) :
    countSub p (a ++ b) = countSub p a + countSub p b := by
  induction a with
  | nil => simp [countSub]
  | cons c t ih =>
    have hdf' : dangerFree p t := by
      intro k hk0 hklen hsuf
      exact hdf k hk0 hklen (hsuf.trans (List.suffix_cons c t))
    have hiff : pfx p (c :: (t ++ b)) = pfx p (c :: t) := by
      by_cases hshort : p <+: c :: t
      · have h2 : p <+: c :: (t ++ b) :=
          hshort.trans (List.prefix_append (c :: t) b)
        rw [pfx_iff.mpr hshort, pfx_iff.mpr h2]
      · have hlong : ¬ p <+: c :: (t ++ b) := by
          intro hpre
          have h1 : (c :: t) <+: c :: (t ++ b) :=
            List.prefix_append (c :: t) b
          by_cases hl : p.length ≤ (c :: t).length
          · exact hshort (prefix_of_prefix_length_le hpre h1 hl)
          · push_neg at hl
            have h2 : (c :: t) <+: p :=
              prefix_of_prefix_length_le h1 hpre (Nat.le_of_lt hl)
            have h3 : p.take (c :: t).length = c :: t :=
              (List.prefix_iff_eq_take.mp h2).symm
            exact hdf (c :: t).length (by simp) hl
              (by rw [h3])
        have e1 : pfx p (c :: t) = false := by
          cases hb : pfx p (c :: t)
          · rfl
          · exact absurd (pfx_iff.mp hb) hshort
        have e2 : pfx p (c :: (t ++ b)) = false := by
          cases hb : pfx p (c :: (t ++ b))
          · rfl
          · exact absurd (pfx_iff.mp hb) hlong
        rw [e1, e2]
    have hrec : countSub p (t ++ b) = countSub p t + countSub p b := ih hdf'
    show (if pfx p (c :: (t ++ b)) then 1 else 0) + countSub p (t ++ b) =
      ((if pfx p (c :: t) then 1 else 0) + countSub p t) + countSub p b
    rw [hiff, hrec]; omega

/-- Every occurrence of byte 60 (the character that opens a tag) in `l`
begins a complete member of the tag family `T`, contained in `l`. -/
def startsTag (T : List Nat → Prop) (l : List Nat) : Prop :=
  ∀ j, (l.drop j).head? = some 60 → ∃ t, T t ∧ t ≠ [] ∧ t <+: l.drop j

theorem startsTag_mono {T T' : List Nat → Prop} (hTT : ∀ t, T t → T' t)
    {l : List Nat} (h : startsTag T l) : startsTag T' l := by
  intro j hj
  obtain ⟨t, h1, h2, h3⟩ := h j hj
  exact ⟨t, hTT t h1, h2, h3⟩

theorem startsTag_append {T} {a b : List Nat} (ha : startsTag T a)
    (hb : startsTag T b) : startsTag T (a ++ b) := by
  intro j hj
  by_cases hcase : j < a.length
  · have hd : (a ++ b).drop j = a.drop j ++ b :=
      List.drop_append_of_le_length (Nat.le_of_lt hcase)
    have hne : a.drop j ≠ [] := by
      intro hnil
      have := List.drop_eq_nil_iff.mp hnil
      omega
    rw [hd, List.head?_append_of_ne_nil _ hne] at hj
    obtain ⟨t, h1, h2, h3⟩ := ha j hj
    exact ⟨t, h1, h2, by rw [hd]; exact h3.trans (List.prefix_append _ _)⟩
  · push_neg at hcase
    have hd : (a ++ b).drop j = b.drop (j - a.length) := by
      rw [List.drop_append_eq_append_drop,
        List.drop_eq_nil_iff.mpr hcase, List.nil_append]
    rw [hd] at hj ⊢
    exact hb _ hj

theorem startsTag_no60 {T} {l : List Nat} (h : ∀ c ∈ l, c ≠ 60) :
    startsTag T l := by
  intro j hj
  exfalso
  rw [List.head?_drop] at hj
  have hmem : (60 : Nat) ∈ l := by
    have := List.getElem?_mem hj
    exact this
  exact h 60 hmem rfl

/-- A single complete tag (followed by nothing) whose interior contains no
`60` byte satisfies `startsTag`. -/
theorem startsTag_tag {T} {t : List Nat} (hT : T t) (hne : t ≠ [])
    (htail : ∀ c ∈ t.tail, c ≠ 60) : startsTag T t := by
  intro j hj
  match j with
  | 0 => exact ⟨t, hT, hne, List.prefix_refl t⟩
  | j + 1 =>
    exfalso
    rw [List.head?_drop] at hj
    have hmem : (60 : Nat) ∈ t.drop (j + 1) := by
      have : t[j+1]? = (t.drop (j+1)).head? := (List.head?_drop t (j+1)).symm
      rw [this] at hj
      cases hdrop : t.drop (j+1) with
      | nil => rw [hdrop] at hj; simp at hj
      | cons x xs =>
        rw [hdrop] at hj
        simp at hj
        simp [hdrop, hj]
    have : (60 : Nat) ∈ t.tail := by
      have h1 : t.drop (j + 1) = t.tail.drop j := by
        cases t with
        | nil => simp
        | cons x xs => simp
      rw [h1] at hmem
      exact List.drop_subset _ _ hmem
    exact htail 60 this rfl

/-- The inline tags the escape writer passes through verbatim:
`<code> </code> <hr> <tt> </tt> <br> <b> <s> <i> <u> </b> </s> </i> </u>`. -/
def inlineTagList : List (List Nat) :=
  [[60, 99, 111, 100, 101, 62], [60, 47, 99, 111, 100, 101, 62],
   [60, 104, 114, 62], [60, 116, 116, 62], [60, 47, 116, 116, 62],
   [60, 98, 114, 62], [60, 98, 62], [60, 115, 62], [60, 105, 62], [60, 117, 62],
   [60, 47, 98, 62], [60, 47, 115, 62], [60, 47, 105, 62], [60, 47, 117, 62]]

/-- Membership in the inline whitelist. -/
def inlineTag (t : List Nat) : Prop := t ∈ inlineTagList

/-- The renderer's literal tags (besides the two heading forms):
`<p> <li> <ul> </ul> <ol> </ol> <table> </table> <thead> <tbody> <tr> <th>
<td> <blockquote> </blockquote> <pre> </pre>`, plus the two-byte string
`<>` which arises inside a heading tag whose level byte is itself `<`. -/
def blockTagList : List (List Nat) :=
  [[60, 112, 62], [60, 108, 105, 62],
   [60, 117, 108, 62], [60, 47, 117, 108, 62],
   [60, 111, 108, 62], [60, 47, 111, 108, 62],
   [60, 116, 97, 98, 108, 101, 62], [60, 47, 116, 97, 98, 108, 101, 62],
   [60, 116, 104, 101, 97, 100, 62], [60, 116, 98, 111, 100, 121, 62],
   [60, 116, 114, 62], [60, 116, 104, 62], [60, 116, 100, 62],
   [60, 98, 108, 111, 99, 107, 113, 117, 111, 116, 101, 62],
   [60, 47, 98, 108, 111, 99, 107, 113, 117, 111, 116, 101, 62],
   [60, 112, 114, 101, 62], [60, 47, 112, 114, 101, 62], [60, 62]]

/-- Every string the renderer can place at an occurrence of `60`: an inline
tag, a block literal tag, or one of the two heading forms with an arbitrary
level byte. -/
def emitTag (t : List Nat) : Prop :=
  t ∈ inlineTagList ∨ t ∈ blockTagList ∨
    (∃ c, t = [60, 104, c, 62]) ∨ (∃ c, t = [60, 47, 104, c, 62])

theorem inlineTag_emit {l : List Nat} (h : startsTag inlineTag l) :
    startsTag emitTag l :=
  startsTag_mono (fun _ ht => Or.inl ht) h

/-- Decidable sufficient check for `startsTag` over a concrete literal and a
concrete tag list. -/
def startsTagB (tags : List (List Nat)) (l : List Nat) : Bool :=
  (List.range l.length).all fun j =>
    match (l.drop j).head? with
    | some 60 => tags.any fun t => !t.isEmpty && pfx t (l.drop j)
    | _ => true

theorem startsTag_of_B {tags : List (List Nat)} {l : List Nat}
    (h : startsTagB tags l = true) : startsTag (fun t => t ∈ tags) l := by
  intro j hj
  have hjlt : j < l.length := by
    by_contra hge
    push_neg at hge
    rw [List.drop_eq_nil_iff.mpr hge] at hj
    simp at hj
  have := (List.all_eq_true.mp h) j (List.mem_range.mpr hjlt)
  rw [hj] at this
  simp only at this
  obtain ⟨t, hmem, ht⟩ := List.any_eq_true.mp this
  rw [Bool.and_eq_true] at ht
  refine ⟨t, hmem, ?_, pfx_iff.mp ht.2⟩
  intro hnil
  rw [hnil] at ht
  simp at ht

/-- The open/close tag pairs whose balance §8 of the spec asserts, as byte
patterns.  The heading pair is parameterized by the emitted level byte; the
byte 114 (`r`) is excluded because the escape writer may pass a literal
`<hr>` through, which coincides with the level-66 heading open tag. -/
inductive pairP : List Nat → List Nat → Prop where
  | ul : pairP [60, 117, 108, 62] [60, 47, 117, 108, 62]
  | ol : pairP [60, 111, 108, 62] [60, 47, 111, 108, 62]
  | tab : pairP [60, 116, 97, 98, 108, 101, 62] [60, 47, 116, 97, 98, 108, 101, 62]
  | quo : pairP [60, 98, 108, 111, 99, 107, 113, 117, 111, 116, 101, 62]
      [60, 47, 98, 108, 111, 99, 107, 113, 117, 111, 116, 101, 62]
  | pre : pairP [60, 112, 114, 101, 62] [60, 47, 112, 114, 101, 62]
  | hd (d : Nat) (hne : d ≠ 114) : pairP [60, 104, d, 62] [60, 47, 104, d, 62]

/-- A counted pattern: a member of some counted pair. -/
def cpat (p : List Nat) : Prop := ∃ q, pairP p q ∨ pairP q p

/-- The ten concrete counted patterns. -/
def concretePatList : List (List Nat) :=
  [[60, 117, 108, 62], [60, 47, 117, 108, 62],
   [60, 111, 108, 62], [60, 47, 111, 108, 62],
   [60, 116, 97, 98, 108, 101, 62], [60, 47, 116, 97, 98, 108, 101, 62],
   [60, 98, 108, 111, 99, 107, 113, 117, 111, 116, 101, 62],
   [60, 47, 98, 108, 111, 99, 107, 113, 117, 111, 116, 101, 62],
   [60, 112, 114, 101, 62], [60, 47, 112, 114, 101, 62]]

theorem cpat_cases {p : List Nat} (hp : cpat p) :
    p ∈ concretePatList ∨ (∃ d, d ≠ 114 ∧ p = [60, 104, d, 62]) ∨
      (∃ d, d ≠ 114 ∧ p = [60, 47, 104, d, 62]) := by
  obtain ⟨q, hq | hq⟩ := hp <;> cases hq <;>
    simp_all [concretePatList, cpat]

theorem cpat_head {p : List Nat} (hp : cpat p) :
    ∃ r, p = 60 :: r := by
  rcases cpat_cases hp with h | ⟨d, _, rfl⟩ | ⟨d, _, rfl⟩
  · fin_cases h <;> exact ⟨_, rfl⟩
  · exact ⟨_, rfl⟩
  · exact ⟨_, rfl⟩

theorem concrete_emit_not_proper :
    ∀ t ∈ inlineTagList ++ blockTagList, ∀ p ∈ concretePatList,
      ¬ (t <+: p ∧ t.length < p.length) := by decide

/-- No emitted tag is a nonempty proper prefix of a counted pattern. -/
theorem emit_not_proper {t p : List Nat} (ht : emitTag t) (hp : cpat p)
    (hpre : t <+: p) (hlen : t.length < p.length) : False := by
  rcases cpat_cases hp with hc | ⟨d, hd114, rfl⟩ | ⟨d, hd114, rfl⟩
  · rcases ht with hti | htb | ⟨c, rfl⟩ | ⟨c, rfl⟩
    · exact concrete_emit_not_proper t
        (List.mem_append.mpr (Or.inl hti)) _ hc ⟨hpre, hlen⟩
    · exact concrete_emit_not_proper t
        (List.mem_append.mpr (Or.inr htb)) _ hc ⟨hpre, hlen⟩
    · obtain ⟨s, hs⟩ := hpre
      fin_cases hc <;> simp_all
    · obtain ⟨s, hs⟩ := hpre
      fin_cases hc <;> simp_all
  · rcases ht with hti | htb | ⟨c, rfl⟩ | ⟨c, rfl⟩
    · obtain ⟨s, hs⟩ := hpre
      fin_cases hti <;> simp_all
    · obtain ⟨s, hs⟩ := hpre
      fin_cases htb <;> simp_all
    · simp at hlen
    · obtain ⟨s, hs⟩ := hpre
      simp at hs
  · rcases ht with hti | htb | ⟨c, rfl⟩ | ⟨c, rfl⟩
    · obtain ⟨s, hs⟩ := hpre
      fin_cases hti <;> simp_all
    · obtain ⟨s, hs⟩ := hpre
      fin_cases htb <;> simp_all
    · obtain ⟨s, hs⟩ := hpre
      simp at hs
    · simp at hlen

theorem concrete_inline_not_occ :
    ∀ t ∈ inlineTagList, ∀ p ∈ concretePatList,
      ¬ (t <+: p) ∧ ¬ (p <+: t) := by decide

/-- No inline whitelist tag is prefix-comparable with a counted pattern (in
either direction); for the heading pair this is exactly where the byte 114
exclusion is needed. -/
theorem inline_not_occ {t p : List Nat} (ht : t ∈ inlineTagList)
    (hp : cpat p) : ¬ (t <+: p) ∧ ¬ (p <+: t) := by
  rcases cpat_cases hp with hc | ⟨d, hd114, rfl⟩ | ⟨d, hd114, rfl⟩
  · exact concrete_inline_not_occ t ht _ hc
  · constructor <;> intro hpre <;> obtain ⟨s, hs⟩ := hpre <;>
      fin_cases ht <;> simp_all
  · constructor <;> intro hpre <;> obtain ⟨s, hs⟩ := hpre <;>
      fin_cases ht <;> simp_all

/-- A list all of whose `60` occurrences start emitted tags cannot end in a
nonempty proper prefix of a counted pattern. -/
theorem dangerFree_of_startsTag {p l : List Nat} (hp : cpat p)
    (hl : startsTag emitTag l) : dangerFree p l := by
  intro k hk0 hklen hsuf
  obtain ⟨u, hu⟩ := hsuf
  obtain ⟨r, hr⟩ := cpat_head hp
  have hhead : (l.drop u.length).head? = some 60 := by
    rw [← hu, List.drop_left, hr]
    cases k with
    | zero => omega
    | succ k => simp
  obtain ⟨t, htag, htne, htpre⟩ := hl u.length hhead
  rw [← hu, List.drop_left] at htpre
  have h1 : t <+: p := htpre.trans (List.take_prefix k p)
  have h2 : t.length ≤ k := by
    have h3 := htpre.length_le
    rw [List.length_take] at h3
    omega
  exact emit_not_proper htag hp h1 (lt_of_le_of_lt h2 hklen)

/-- A list all of whose `60` occurrences start inline whitelist tags contains
no occurrence of any counted pattern. -/
theorem countSub_zero_of_inline {p l : List Nat} (hp : cpat p)
    (hl : startsTag inlineTag l) : countSub p l = 0 := by
  apply countSub_eq_zero
  intro j hocc
  obtain ⟨r, hr⟩ := cpat_head hp
  have hhead : (l.drop j).head? = some 60 := by
    obtain ⟨s, hs⟩ := hocc
    rw [← hs, hr]; rfl
  obtain ⟨t, htag, htne, htpre⟩ := hl j hhead
  by_cases hlen : t.length ≤ p.length
  · exact (inline_not_occ htag hp).1 (prefix_of_prefix_length_le htpre hocc hlen)
  · push_neg at hlen
    exact (inline_not_occ htag hp).2
      (prefix_of_prefix_length_le hocc htpre (Nat.le_of_lt hlen))

theorem startsTag_cons {T} {c : Nat} {l : List Nat} (hc : c ≠ 60)
    (h : startsTag T l) : startsTag T (c :: l) := by
  have h1 : startsTag T [c] := startsTag_no60 (by simpa using hc)
  simpa using startsTag_append h1 h

/-- Every `60` in one step of the escape writer starts a complete inline
whitelist tag, provided the recursive results have the same property: `60`
is only emitted as the first byte of a pass-through tag chunk. -/
theorem escBody_inline {rec : List Nat → List Nat} {c : Nat} {r : List Nat}
    (hrec : ∀ x, startsTag inlineTag (rec x)) :
    startsTag inlineTag (escBody rec c r) := by
  have tagOf : ∀ t : List Nat, t ∈ inlineTagList → (∀ x ∈ t.tail, x ≠ 60) →
      ∀ y, startsTag inlineTag (t ++ rec y) := by
    intro t hmem htail y
    exact startsTag_append
      (startsTag_tag hmem (by rintro rfl; simp [inlineTagList] at hmem) htail)
      (hrec y)
  have chunkOf : ∀ t : List Nat, (∀ x ∈ t, x ≠ 60) →
      ∀ y, startsTag inlineTag (t ++ rec y) := by
    intro t h60 y
    exact startsTag_append (startsTag_no60 h60) (hrec y)
  have consOf : ∀ x : Nat, x ≠ 60 → ∀ y, startsTag inlineTag (x :: rec y) := by
    intro x hx y
    exact startsTag_cons hx (hrec y)
  unfold escBody
  by_cases h1 : c = 45
  · rw [if_pos h1]
    by_cases h2 : r.take 2 = [45, 45]
    · rw [if_pos h2]; exact chunkOf [38, 109, 100, 97, 115, 104, 59] (by decide) _
    · rw [if_neg h2]
      by_cases h3 : r.take 1 = [45]
      · rw [if_pos h3]; exact chunkOf [38, 110, 100, 97, 115, 104, 59] (by decide) _
      · rw [if_neg h3]; exact consOf 45 (by decide) _
  · rw [if_neg h1]
    by_cases h4 : c = 38
    · rw [if_pos h4]
      by_cases h5 : r.take 3 = [108, 116, 59]
      · rw [if_pos h5]; exact chunkOf [38, 108, 116, 59] (by decide) _
      · rw [if_neg h5]
        by_cases h6 : r.take 3 = [103, 116, 59]
        · rw [if_pos h6]; exact chunkOf [38, 103, 116, 59] (by decide) _
        · rw [if_neg h6]; exact chunkOf [38, 97, 109, 112, 59] (by decide) _
    · rw [if_neg h4]
      by_cases h7 : c = 60
      · rw [if_pos h7]
        by_cases h8 : r.take 5 = [99, 111, 100, 101, 62]
        · rw [if_pos h8]; exact tagOf [60, 99, 111, 100, 101, 62] (by decide) (by decide) _
        · rw [if_neg h8]
          by_cases h9 : r.take 3 = [104, 114, 62]
          · rw [if_pos h9]; exact tagOf [60, 104, 114, 62] (by decide) (by decide) _
          · rw [if_neg h9]
            by_cases h10 : r.take 6 = [47, 99, 111, 100, 101, 62]
            · rw [if_pos h10]; exact tagOf [60, 47, 99, 111, 100, 101, 62] (by decide) (by decide) _
            · rw [if_neg h10]
              by_cases h11 : r.take 4 = [47, 116, 116, 62]
              · rw [if_pos h11]; exact tagOf [60, 47, 116, 116, 62] (by decide) (by decide) _
              · rw [if_neg h11]
                by_cases h12 : r.take 3 = [116, 116, 62]
                · rw [if_pos h12]; exact tagOf [60, 116, 116, 62] (by decide) (by decide) _
                · rw [if_neg h12]
                  by_cases h13 : r.take 3 = [98, 114, 62]
                  · rw [if_pos h13]; exact tagOf [60, 98, 114, 62] (by decide) (by decide) _
                  · rw [if_neg h13]
                    by_cases h14 : r.take 2 = [98, 62]
                    · rw [if_pos h14]; exact tagOf [60, 98, 62] (by decide) (by decide) _
                    · rw [if_neg h14]
                      by_cases h15 : r.take 2 = [115, 62]
                      · rw [if_pos h15]; exact tagOf [60, 115, 62] (by decide) (by decide) _
                      · rw [if_neg h15]
                        by_cases h16 : r.take 2 = [105, 62]
                        · rw [if_pos h16]; exact tagOf [60, 105, 62] (by decide) (by decide) _
                        · rw [if_neg h16]
                          by_cases h17 : r.take 2 = [117, 62]
                          · rw [if_pos h17]; exact tagOf [60, 117, 62] (by decide) (by decide) _
                          · rw [if_neg h17]
                            by_cases h18 : r.take 3 = [47, 98, 62]
                            · rw [if_pos h18]; exact tagOf [60, 47, 98, 62] (by decide) (by decide) _
                            · rw [if_neg h18]
                              by_cases h19 : r.take 3 = [47, 115, 62]
                              · rw [if_pos h19]; exact tagOf [60, 47, 115, 62] (by decide) (by decide) _
                              · rw [if_neg h19]
                                by_cases h20 : r.take 3 = [47, 105, 62]
                                · rw [if_pos h20]; exact tagOf [60, 47, 105, 62] (by decide) (by decide) _
                                · rw [if_neg h20]
                                  by_cases h21 : r.take 3 = [47, 117, 62]
                                  · rw [if_pos h21]; exact tagOf [60, 47, 117, 62] (by decide) (by decide) _
                                  · rw [if_neg h21]
                                    exact chunkOf [38, 108, 116, 59] (by decide) _
      · rw [if_neg h7]
        by_cases h22 : c = 62
        · rw [if_pos h22]; exact chunkOf [38, 103, 116, 59] (by decide) _
        · rw [if_neg h22]
          by_cases h23 : c = 13
          · rw [if_pos h23]; exact consOf 32 (by decide) _
          · rw [if_neg h23]
            by_cases h24 : c = 12
            · rw [if_pos h24]; exact consOf 32 (by decide) _
            · rw [if_neg h24]
              by_cases h25 : (c < 32 && c != 9) = true
              · rw [if_pos h25]; exact hrec _
              · rw [if_neg h25]; exact consOf c h7 _

theorem escSlowF_inline : ∀ (fuel : Nat) (t : List Nat),
    startsTag inlineTag (escSlowF fuel t) := by
  intro fuel
  induction fuel with
  | zero => intro t; exact startsTag_no60 (by simp [escSlowF])
  | succ f ih =>
    intro t
    cases t with
    | nil => exact startsTag_no60 (by simp [escSlowF])
    | cons c r => exact escBody_inline ih

theorem esc_slow_inline (t : List Nat) :
    startsTag inlineTag (write_link_escaped_str_slow t) :=
  escSlowF_inline t.length t

/-- On a byte that is none of the rewritten characters and not a control
byte, one escape step copies the byte and continues. -/
theorem escBody_other {rec : List Nat → List Nat} {c : Nat} {r : List Nat}
    (h45 : c ≠ 45) (h38 : c ≠ 38) (h60 : c ≠ 60) (h62 : c ≠ 62)
    (h32 : 32 ≤ c) : escBody rec c r = c :: rec r := by
  unfold escBody
  have hcond : ¬ ((c < 32 && c != 9) = true) := by
    simp only [Bool.and_eq_true, decide_eq_true_eq, bne_iff_ne, ne_eq]
    omega
  rw [if_neg h45, if_neg h38, if_neg h60, if_neg h62,
    if_neg (by omega : ¬ c = 13), if_neg (by omega : ¬ c = 12), if_neg hcond]

theorem esc_slow_append {a b : List Nat}
    (h : ∀ c ∈ a, c ≠ 45 ∧ c ≠ 38 ∧ c ≠ 60 ∧ c ≠ 62 ∧ 32 ≤ c) :
    write_link_escaped_str_slow (a ++ b) = a ++ write_link_escaped_str_slow b := by
  induction a with
  | nil => simp
  | cons c t ih =>
    obtain ⟨h45, h38, h60, h62, h32⟩ := h c (List.mem_cons_self c t)
    have h1 : write_link_escaped_str_slow ((c :: t) ++ b) =
        escBody (escSlowF (t ++ b).length) c (t ++ b) := rfl
    rw [h1, escBody_other h45 h38 h60 h62 h32,
      show escSlowF (t ++ b).length (t ++ b) = write_link_escaped_str_slow (t ++ b)
        from rfl,
      ih (fun x hx => h x (List.mem_cons_of_mem c hx))]
    rfl

/-- Bytes on which the scalar writer acts as the identity: not one of the
rewritten characters and not a control byte. -/
def cleanByte (c : Nat) : Prop :=
  c ≠ 91 ∧ c ≠ 45 ∧ c ≠ 60 ∧ c ≠ 62 ∧ c ≠ 38 ∧ 32 ≤ c

/-- On clean text the scalar escape writer is the identity. -/
theorem esc_slow_copy {t : List Nat} (h : ∀ c ∈ t, cleanByte c) :
    write_link_escaped_str_slow t = t := by
  have h2 := esc_slow_append (a := t) (b := [])
    (fun c hc => by
      obtain ⟨h91, h45, h60, h62, h38, h32⟩ := h c hc
      exact ⟨h45, h38, h60, h62, h32⟩)
  rw [show write_link_escaped_str_slow [] = [] from rfl] at h2
  simpa using h2

/-- The NEON build of `write_link_escaped_str`. -/
def write_link_escaped_str_neon (t : List Nat) : List Nat :=
  escVec hitNeon t.length t

/-- The WASM build of `write_link_escaped_str`. -/
def write_link_escaped_str_wasm (t : List Nat) : List Nat :=
  escVec hitWasm t.length t

/-- Any vector-scan build is the identity on clean text: copied blocks are
clean, and the scalar remainder is the identity on clean text. -/
theorem escVec_clean {hit : Nat → Bool} : ∀ (fuel : Nat) (t : List Nat),
    (∀ c ∈ t, cleanByte c) → escVec hit fuel t = t := by
  intro fuel
  induction fuel with
  | zero => intro t h; exact esc_slow_copy h
  | succ f ih =>
    intro t h
    simp only [escVec]
    split
    · rw [ih (t.drop 16) (fun c hc => h c (List.drop_subset 16 t hc))]
      exact List.take_append_drop 16 t
    · exact esc_slow_copy h

/-- A vector scan whose hit set covers every byte the scalar writer rewrites
computes exactly the scalar result (true of the x86 and NEON builds). -/
theorem escVec_eq_slow {hit : Nat → Bool}
    (hcover : ∀ c, hit c = false → c ≠ 45 ∧ c ≠ 38 ∧ c ≠ 60 ∧ c ≠ 62 ∧ 32 ≤ c) :
    ∀ (fuel : Nat) (t : List Nat),
      escVec hit fuel t = write_link_escaped_str_slow t := by
  intro fuel
  induction fuel with
  | zero => intro t; rfl
  | succ f ih =>
    intro t
    simp only [escVec]
    split
    · next hcond =>
      rw [Bool.and_eq_true, List.all_eq_true] at hcond
      have hclean : ∀ c ∈ t.take 16, c ≠ 45 ∧ c ≠ 38 ∧ c ≠ 60 ∧ c ≠ 62 ∧ 32 ≤ c := by
        intro c hc
        have := hcond.2 c hc
        simp only [Bool.not_eq_eq_eq_not, Bool.not_true] at this
        exact hcover c this
      rw [ih, ← esc_slow_append hclean, List.take_append_drop]
    · rfl

theorem hitX86_cover :
    ∀ c, hitX86 c = false → c ≠ 45 ∧ c ≠ 38 ∧ c ≠ 60 ∧ c ≠ 62 ∧ 32 ≤ c := by
  intro c h
  simp only [hitX86, Bool.or_eq_false_iff, beq_eq_false_iff_ne, ne_eq,
    decide_eq_false_iff_not, not_lt, not_le] at h
  tauto

theorem hitNeon_cover :
    ∀ c, hitNeon c = false → c ≠ 45 ∧ c ≠ 38 ∧ c ≠ 60 ∧ c ≠ 62 ∧ 32 ≤ c := by
  intro c h
  simp only [hitNeon, Bool.or_eq_false_iff, beq_eq_false_iff_ne, ne_eq,
    decide_eq_false_iff_not, not_lt, not_le] at h
  tauto

/-- The x86 build of the escape writer always computes the scalar result. -/
theorem write_link_escaped_str_eq_slow (t : List Nat) :
    write_link_escaped_str t = write_link_escaped_str_slow t :=
  escVec_eq_slow hitX86_cover t.length t

/-- Balance property of a rendered byte string: every `60` starts an emitted
tag, and the two members of every counted pair occur equally often. -/
def balOk (l : List Nat) : Prop :=
  startsTag emitTag l ∧ ∀ p q, pairP p q → countSub p l = countSub q l

theorem countSub_split {p a b : List Nat} (hp : cpat p)
    (ha : startsTag emitTag a) :
    countSub p (a ++ b) = countSub p a + countSub p b :=
  countSub_append (dangerFree_of_startsTag hp ha)

theorem countSub_zero_no60 {p l : List Nat} (hp : cpat p)
    (h : ∀ c ∈ l, c ≠ 60) : countSub p l = 0 := by
  apply countSub_eq_zero
  intro j hocc
  obtain ⟨r, hr⟩ := cpat_head hp
  obtain ⟨s, hs⟩ := hocc
  have hmem : (60 : Nat) ∈ l.drop j := by
    rw [← hs, hr]; exact List.mem_cons_self _ _
  exact h 60 (List.drop_subset _ _ hmem) rfl

/-- The emitted-tag families of the inline and block tag lists. -/
def emitLits : List (List Nat) := inlineTagList ++ blockTagList

theorem startsTag_lit {l : List Nat} (h : startsTagB emitLits l = true) :
    startsTag emitTag l := by
  refine startsTag_mono ?_ (startsTag_of_B h)
  intro t ht
  rcases List.mem_append.mp ht with h1 | h2
  · exact Or.inl h1
  · exact Or.inr (Or.inl h2)

theorem startsTag_hOpen (c : Nat) : startsTag emitTag [60, 104, c, 62] := by
  intro j hj
  match j with
  | 0 =>
    exact ⟨[60, 104, c, 62], Or.inr (Or.inr (Or.inl ⟨c, rfl⟩)),
      by simp, List.prefix_refl _⟩
  | 1 => simp at hj
  | 2 =>
    simp at hj
    exact ⟨[60, 62], Or.inr (Or.inl (by decide)), by simp,
      by simp [hj, List.cons_prefix_cons]⟩
  | 3 => simp at hj
  | (n + 4) => simp at hj

theorem startsTag_hClose (c : Nat) : startsTag emitTag [60, 47, 104, c, 62] := by
  intro j hj
  match j with
  | 0 =>
    exact ⟨[60, 47, 104, c, 62], Or.inr (Or.inr (Or.inr ⟨c, rfl⟩)),
      by simp, List.prefix_refl _⟩
  | 1 => simp at hj
  | 2 => simp at hj
  | 3 =>
    simp at hj
    exact ⟨[60, 62], Or.inr (Or.inl (by decide)), by simp,
      by simp [hj, List.cons_prefix_cons]⟩
  | 4 => simp at hj
  | (n + 5) => simp at hj

/-- A byte string that contributes nothing to any counted pattern and whose
`60`s all start emitted tags (separators and neutral literal pieces). -/
def neutral (l : List Nat) : Prop :=
  startsTag emitTag l ∧ ∀ p, cpat p → countSub p l = 0

theorem neutral_nil : neutral [] :=
  ⟨startsTag_no60 (by simp), fun p _ => rfl⟩

theorem seqRender_ok {r : Nat → Except Int (List Nat)}
    (hr : ∀ h out, r h = .ok out → balOk out)
    {before between afterEach : List Nat}
    (hb : neutral before) (hbet : neutral between) (haf : neutral afterEach) :
    ∀ (hs : List Nat) (first : Bool) (s : List Nat),
      seqRender r before between afterEach first hs = .ok s → balOk s := by
  intro hs
  induction hs with
  | nil =>
    intro first s hrun
    simp only [seqRender] at hrun
    cases hrun
    exact ⟨startsTag_no60 (by simp), fun p q _ => rfl⟩
  | cons h t ih =>
    intro first s hrun
    simp only [seqRender] at hrun
    cases hro : r h with
    | error e => rw [hro] at hrun; cases hrun
    | ok o =>
      rw [hro] at hrun
      cases hrec : seqRender r before between afterEach false t with
      | error e => rw [hrec] at hrun; cases hrun
      | ok rest =>
        rw [hrec] at hrun
        cases hrun
        obtain ⟨ho1, ho2⟩ := hr h o hro
        obtain ⟨hq1, hq2⟩ := ih false rest hrec
        have hsep : neutral (if first then ([] : List Nat) else between) := by
          cases first
          · simpa using hbet
          · simpa using neutral_nil
        constructor
        · exact startsTag_append (startsTag_append (startsTag_append
            (startsTag_append hsep.1 hb.1) ho1) haf.1) hq1
        · intro p q hpq
          have hp : cpat p := ⟨q, Or.inl hpq⟩
          have hq : cpat q := ⟨p, Or.inr hpq⟩
          simp only [List.append_assoc]
          rw [countSub_split hp hsep.1, countSub_split hp hb.1,
            countSub_split hp ho1, countSub_split hp haf.1,
            countSub_split hq hsep.1, countSub_split hq hb.1,
            countSub_split hq ho1, countSub_split hq haf.1,
            hsep.2 p hp, hsep.2 q hq, hb.2 p hp, hb.2 q hq,
            haf.2 p hp, haf.2 q hq, ho2 p q hpq, hq2 p q hpq]

theorem neutral_lit {l : List Nat} (h1 : startsTagB emitLits l = true)
    (h2 : ∀ p ∈ concretePatList, countSub p l = 0)
    (h3 : ∀ d, countSub [60, 104, d, 62] l = 0)
    (h4 : ∀ d, countSub [60, 47, 104, d, 62] l = 0) : neutral l := by
  refine ⟨startsTag_lit h1, ?_⟩
  intro p hp
  rcases cpat_cases hp with hc | ⟨d, _, rfl⟩ | ⟨d, _, rfl⟩
  · exact h2 p hc
  · exact h3 d
  · exact h4 d

theorem neutral_NL : neutral [10] :=
  neutral_lit (by decide) (by decide) (fun d => rfl) (fun d => rfl)

theorem neutral_SP : neutral [32] :=
  neutral_lit (by decide) (by decide) (fun d => rfl) (fun d => rfl)

theorem neutral_P : neutral [60, 112, 62] :=
  neutral_lit (by decide) (by decide) (fun d => rfl) (fun d => rfl)

theorem neutral_LI : neutral [60, 108, 105, 62] :=
  neutral_lit (by decide) (by decide) (fun d => rfl) (fun d => rfl)

theorem neutral_TD : neutral [60, 116, 100, 62] :=
  neutral_lit (by decide) (by decide) (fun d => rfl) (fun d => rfl)

theorem neutral_TH : neutral [60, 116, 104, 62] :=
  neutral_lit (by decide) (by decide) (fun d => rfl) (fun d => rfl)

theorem neutral_TR : neutral [60, 116, 114, 62] :=
  neutral_lit (by decide) (by decide) (fun d => rfl) (fun d => rfl)

theorem neutral_TRN : neutral [60, 116, 114, 62, 10] :=
  neutral_lit (by decide) (by decide) (fun d => rfl) (fun d => rfl)

theorem neutral_MID : neutral [10, 60, 116, 98, 111, 100, 121, 62, 10] :=
  neutral_lit (by decide) (by decide) (fun d => rfl) (fun d => rfl)

theorem stUL : startsTag emitTag [60, 117, 108, 62, 10] := startsTag_lit (by decide)
theorem stULC : startsTag emitTag [60, 47, 117, 108, 62, 10] := startsTag_lit (by decide)
theorem stOL : startsTag emitTag [60, 111, 108, 62, 10] := startsTag_lit (by decide)
theorem stOLC : startsTag emitTag [60, 47, 111, 108, 62, 10] := startsTag_lit (by decide)
theorem stQB : startsTag emitTag [60, 98, 108, 111, 99, 107, 113, 117, 111, 116, 101, 62, 10] :=
  startsTag_lit (by decide)
theorem stQBC : startsTag emitTag [60, 47, 98, 108, 111, 99, 107, 113, 117, 111, 116, 101, 62, 10] :=
  startsTag_lit (by decide)
theorem stPRE : startsTag emitTag [60, 112, 114, 101, 62] := startsTag_lit (by decide)
theorem stPREC : startsTag emitTag [60, 47, 112, 114, 101, 62, 10] := startsTag_lit (by decide)
theorem stTBASE : startsTag emitTag
    [60, 116, 97, 98, 108, 101, 62, 10, 60, 116, 104, 101, 97, 100, 62, 10] :=
  startsTag_lit (by decide)
theorem stTC : startsTag emitTag [60, 47, 116, 97, 98, 108, 101, 62, 10] :=
  startsTag_lit (by decide)

theorem balOk_pre {lit s : List Nat} (hlit : neutral lit) (hs : balOk s) :
    balOk (lit ++ s) := by
  constructor
  · exact startsTag_append hlit.1 hs.1
  · intro p q hpq
    have hp : cpat p := ⟨q, Or.inl hpq⟩
    have hq : cpat q := ⟨p, Or.inr hpq⟩
    rw [countSub_split hp hlit.1, countSub_split hq hlit.1,
      hlit.2 p hp, hlit.2 q hq, hs.2 p q hpq]

theorem balOk_wrap {o c s : List Nat} (ho : startsTag emitTag o)
    (hc : startsTag emitTag c) (hs : balOk s)
    (hcnt : ∀ p q, pairP p q →
      countSub p o + countSub p c = countSub q o + countSub q c) :
    balOk (o ++ s ++ c) := by
  constructor
  · exact startsTag_append (startsTag_append ho hs.1) hc
  · intro p q hpq
    have hp : cpat p := ⟨q, Or.inl hpq⟩
    have hq : cpat q := ⟨p, Or.inr hpq⟩
    simp only [List.append_assoc]
    rw [countSub_split hp ho, countSub_split hp hs.1,
      countSub_split hq ho, countSub_split hq hs.1, hs.2 p q hpq]
    have h1 := hcnt p q hpq
    omega

/-- Master balance invariant of the renderer: any successful `render_node`
output has all `60`s starting emitted tags, and equal counts for the two
members of every counted pair. -/
theorem render_balanced : ∀ (fuel : Nat) (ctx : DrMdContext) (idx depth : Nat)
    (out : List Nat), render_node fuel ctx idx depth = .ok out → balOk out := by
  intro fuel
  induction fuel with
  | zero =>
    intro ctx idx depth out h
    simp [render_node] at h
  | succ f ih =>
    intro ctx idx depth out h
    have hr : ∀ hh oo, render_node f ctx hh (depth + 1) = .ok oo → balOk oo :=
      fun hh oo hho => ih ctx hh (depth + 1) oo hho
    by_cases hd : depth > 20
    · rw [render_node, if_pos hd] at h
      simp at h
    · rw [render_node, if_neg hd] at h
      simp only [] at h
      split at h
      · simp at h
      · -- STRING
        cases h
        rw [write_link_escaped_str_eq_slow]
        refine ⟨inlineTag_emit (esc_slow_inline _), ?_⟩
        intro p q hpq
        rw [countSub_zero_of_inline ⟨q, Or.inl hpq⟩ (esc_slow_inline _),
          countSub_zero_of_inline ⟨p, Or.inr hpq⟩ (esc_slow_inline _)]
      · -- MD
        exact seqRender_ok hr neutral_nil neutral_nil neutral_nil _ _ _ h
      · -- PARA
        cases hseq : seqRender (fun hh => render_node f ctx hh (depth+1))
            [] [10] [] true (get_node ctx idx).children with
        | error e => rw [hseq] at h; simp at h
        | ok s =>
          rw [hseq] at h
          cases h
          exact balOk_pre neutral_P
            (seqRender_ok hr neutral_nil neutral_NL neutral_nil _ _ _ hseq)
      · -- BULLETS
        cases hseq : seqRender (fun hh => render_node f ctx hh (depth+1))
            [] [] [] true (get_node ctx idx).children with
        | error e => rw [hseq] at h; simp at h
        | ok s =>
          rw [hseq] at h
          cases h
          exact balOk_wrap stUL stULC
            (seqRender_ok hr neutral_nil neutral_nil neutral_nil _ _ _ hseq)
            (by intro p q hpq; cases hpq <;> first | decide | rfl)
      · -- LIST
        cases hseq : seqRender (fun hh => render_node f ctx hh (depth+1))
            [] [] [] true (get_node ctx idx).children with
        | error e => rw [hseq] at h; simp at h
        | ok s =>
          rw [hseq] at h
          cases h
          exact balOk_wrap stOL stOLC
            (seqRender_ok hr neutral_nil neutral_nil neutral_nil _ _ _ hseq)
            (by intro p q hpq; cases hpq <;> first | decide | rfl)
      · -- LIST_ITEM
        cases hseq : seqRender (fun hh => render_node f ctx hh (depth+1))
            [] [32] [] true (get_node ctx idx).children with
        | error e => rw [hseq] at h; simp at h
        | ok s =>
          rw [hseq] at h
          cases h
          exact balOk_pre neutral_LI
            (seqRender_ok hr neutral_nil neutral_SP neutral_nil _ _ _ hseq)
      · -- QUOTE
        cases hseq : seqRender (fun hh => render_node f ctx hh (depth+1))
            [] [10] [] true (get_node ctx idx).children with
        | error e => rw [hseq] at h; simp at h
        | ok s =>
          rw [hseq] at h
          cases h
          exact balOk_wrap stQB stQBC
            (seqRender_ok hr neutral_nil neutral_NL neutral_nil _ _ _ hseq)
            (by intro p q hpq; cases hpq <;> first | decide | rfl)
      · -- PRE
        cases hseq : seqRender (fun hh => render_node f ctx hh (depth+1))
            [] [] [10] true (get_node ctx idx).children with
        | error e => rw [hseq] at h; simp at h
        | ok s =>
          rw [hseq] at h
          cases h
          exact balOk_wrap stPRE stPREC
            (seqRender_ok hr neutral_nil neutral_nil neutral_NL _ _ _ hseq)
            (by intro p q hpq; cases hpq <;> first | decide | rfl)
      · -- H
        cases h
        constructor
        · refine startsTag_append (startsTag_append (startsTag_append
            (startsTag_hOpen _) ?_) (startsTag_hClose _)) (startsTag_no60 (by simp))
          rw [write_link_escaped_str_eq_slow]
          exact inlineTag_emit (esc_slow_inline _)
        · intro p q hpq
          have hp : cpat p := ⟨q, Or.inl hpq⟩
          have hq : cpat q := ⟨p, Or.inr hpq⟩
          have hesc : startsTag emitTag
              (write_link_escaped_str (get_node ctx idx).header) := by
            rw [write_link_escaped_str_eq_slow]
            exact inlineTag_emit (esc_slow_inline _)
          simp only [List.append_assoc]
          rw [countSub_split hp (startsTag_hOpen _),
            countSub_split hp hesc, countSub_split hp (startsTag_hClose _),
            countSub_split hq (startsTag_hOpen _),
            countSub_split hq hesc, countSub_split hq (startsTag_hClose _)]
          rw [write_link_escaped_str_eq_slow,
            countSub_zero_of_inline hp (esc_slow_inline _),
            countSub_zero_of_inline hq (esc_slow_inline _)]
          cases hpq <;> simp [countSub, pfx]
      · -- TABLE
        split at h
        · cases h
          constructor
          · exact startsTag_lit (by decide)
          · intro p q hpq
            cases hpq <;> first | decide | rfl
        · split at h
          · simp at h
          · split at h
            · simp at h
            · cases h
              rename_i c0 rows heqch d1 hcells heq1 d2 rws heq2
              have h1 := seqRender_ok hr neutral_TH neutral_nil neutral_nil _ _ _ heq1
              have h2 := seqRender_ok hr neutral_nil neutral_nil neutral_nil _ _ _ heq2
              constructor
              · exact startsTag_append (startsTag_append (startsTag_append
                  (startsTag_append stTBASE
                    (startsTag_append neutral_TRN.1 h1.1))
                  neutral_MID.1) h2.1) stTC
              · intro p q hpq
                have hp : cpat p := ⟨q, Or.inl hpq⟩
                have hq : cpat q := ⟨p, Or.inr hpq⟩
                simp only [List.append_assoc]
                rw [countSub_split hp stTBASE, countSub_split hp neutral_TRN.1,
                  countSub_split hp h1.1, countSub_split hp neutral_MID.1,
                  countSub_split hp h2.1,
                  countSub_split hq stTBASE, countSub_split hq neutral_TRN.1,
                  countSub_split hq h1.1, countSub_split hq neutral_MID.1,
                  countSub_split hq h2.1,
                  h1.2 p q hpq, h2.2 p q hpq,
                  neutral_TRN.2 p hp, neutral_TRN.2 q hq,
                  neutral_MID.2 p hp, neutral_MID.2 q hq]
                cases hpq <;> simp [countSub, pfx] <;> omega
      · -- TABLE_ROW
        cases hseq : seqRender (fun hh => render_node f ctx hh (depth+1))
            [60, 116, 100, 62] [] [] true (get_node ctx idx).children with
        | error e => rw [hseq] at h; simp at h
        | ok s =>
          rw [hseq] at h
          cases h
          exact balOk_pre neutral_TR
            (seqRender_ok hr neutral_TD neutral_nil neutral_nil _ _ _ hseq)

theorem blank_line_aux : ∀ (l : List Nat),
    (∀ b ∈ l.takeWhile isNotEol, isLineWs b = true) →
    (l.dropWhile isLineWs).takeWhile isNotEol = [] := by
  intro l
  induction l with
  | nil => intro _; rfl
  | cons c t ih =>
    intro h
    by_cases hc : isNotEol c = true
    · have hcw : isLineWs c = true := by
        apply h
        rw [List.takeWhile_cons, if_pos hc]
        exact List.mem_cons_self _ _
      rw [List.dropWhile_cons, if_pos hcw]
      apply ih
      intro b hb
      apply h
      rw [List.takeWhile_cons, if_pos hc]
      exact List.mem_cons_of_mem _ hb
    · have hce : c = 10 ∨ c = 0 := by
        simp only [isNotEol, Bool.and_eq_true, bne_iff_ne, ne_eq,
          not_and_or, not_not] at hc
        tauto
      have hcw : isLineWs c = false := by
        rcases hce with rfl | rfl <;> rfl
      rw [List.dropWhile_cons, if_neg (by simp [hcw]), List.takeWhile_cons,
        if_neg (by simp_all)]

/-- On a line whose remaining bytes up to the terminator are all in
space/tab/CR, `analyze_line` puts the line end exactly at
`line_start + nspaces`. -/
theorem analyze_line_blank {input : List Nat} {cursor : Nat}
    (h : ∀ b ∈ (input.drop cursor).takeWhile isNotEol, isLineWs b = true) :
    lineEndAt input cursor = cursor + nspacesAt input cursor := by
  unfold lineEndAt
  rw [blank_line_aux _ h]
  rfl

theorem getD_set_self {α : Type} : ∀ (l : List α) (i : Nat) (a d : α),
    i < l.length → (l.set i a).getD i d = a := by
  intro l
  induction l with
  | nil => intro i a d h; simp at h
  | cons x t ih =>
    intro i a d h
    cases i with
    | zero => rfl
    | succ j => exact ih j a d (by simpa using h)

theorem getD_set_ne {α : Type} : ∀ (l : List α) (i j : Nat) (a d : α),
    i ≠ j → (l.set i a).getD j d = l.getD j d := by
  intro l
  induction l with
  | nil => intro i j a d _; simp [List.set]
  | cons x t ih =>
    intro i j a d hij
    cases i with
    | zero =>
      cases j with
      | zero => exact absurd rfl hij
      | succ j2 => rfl
    | succ i2 =>
      cases j with
      | zero => rfl
      | succ j2 => exact ih i2 j2 a d (by omega)

theorem getD_append_self {α : Type} : ∀ (l : List α) (a d : α),
    (l ++ [a]).getD l.length d = a := by
  intro l
  induction l with
  | nil => intro a d; rfl
  | cons x t ih => intro a d; exact ih a d

theorem getD_append_lt {α : Type} : ∀ (l l2 : List α) (j : Nat) (d : α),
    j < l.length → (l ++ l2).getD j d = l.getD j d := by
  intro l
  induction l with
  | nil => intro l2 j d h; simp at h
  | cons x t ih =>
    intro l2 j d h
    cases j with
    | zero => rfl
    | succ j2 => exact ih l2 j2 d (by simpa using h)

theorem append_node_spec {ctx : DrMdContext} {parent : Nat} {ty : NodeType}
    (hpar : parent < ctx.nodes.length) :
    (append_node ctx parent ty).2 = ctx.nodes.length ∧
    (append_node ctx parent ty).1.nodes.length = ctx.nodes.length + 1 ∧
    get_node (append_node ctx parent ty).1 ctx.nodes.length = ⟨ty, [], [], 0⟩ ∧
    get_node (append_node ctx parent ty).1 parent =
      { get_node ctx parent with children :=
          (get_node ctx parent).children ++ [ctx.nodes.length] } ∧
    (∀ j, j < ctx.nodes.length → j ≠ parent →
      get_node (append_node ctx parent ty).1 j = get_node ctx j) := by
  unfold append_node allocNode appendChild get_node
  simp only [List.length_set, List.length_append, List.length_cons,
    List.length_nil]
  refine ⟨trivial, trivial, ?_, ?_, ?_⟩
  · rw [getD_set_ne _ _ _ _ _ (by omega)]
    exact getD_append_self _ _ _
  · rw [getD_set_self _ _ _ _ (by simp; omega),
      getD_append_lt _ _ _ _ hpar]
  · intro j hj hjp
    rw [getD_set_ne _ _ _ _ _ (fun he => hjp he.symm),
      getD_append_lt _ _ _ _ hj]

theorem append_string_spec {ctx : DrMdContext} {parent : Nat} {sv : List Nat}
    (hpar : parent < ctx.nodes.length) :
    (append_string ctx parent sv).2 = ctx.nodes.length ∧
    (append_string ctx parent sv).1.nodes.length = ctx.nodes.length + 1 ∧
    get_node (append_string ctx parent sv).1 ctx.nodes.length =
      ⟨.STRING, sv, [], 0⟩ ∧
    get_node (append_string ctx parent sv).1 parent =
      { get_node ctx parent with children :=
          (get_node ctx parent).children ++ [ctx.nodes.length] } ∧
    (∀ j, j < ctx.nodes.length → j ≠ parent →
      get_node (append_string ctx parent sv).1 j = get_node ctx j) := by
  unfold append_string appendChild get_node
  simp only [List.length_set, List.length_append, List.length_cons,
    List.length_nil]
  refine ⟨trivial, trivial, ?_, ?_, ?_⟩
  · rw [getD_set_ne _ _ _ _ _ (by omega)]
    exact getD_append_self _ _ _
  · rw [getD_set_self _ _ _ _ (by simp; omega),
      getD_append_lt _ _ _ _ hpar]
  · intro j hj hjp
    rw [getD_set_ne _ _ _ _ _ (fun he => hjp he.symm),
      getD_append_lt _ _ _ _ hj]

theorem setHeading_spec {ctx : DrMdContext} {i lvl : Nat} {hdr : List Nat}
    (hi : i < ctx.nodes.length) :
    (setHeading ctx i lvl hdr).nodes.length = ctx.nodes.length ∧
    get_node (setHeading ctx i lvl hdr) i =
      { get_node ctx i with heading_level := lvl, header := hdr } ∧
    (∀ j, j ≠ i → get_node (setHeading ctx i lvl hdr) j = get_node ctx j) := by
  unfold setHeading get_node
  simp only [List.length_set]
  refine ⟨trivial, ?_, ?_⟩
  · exact getD_set_self _ _ _ _ hi
  · intro j hj
    exact getD_set_ne _ _ _ _ _ (fun he => hj he.symm)

/-- Unfolding of the heading branch of `parseStep`. -/
theorem parseStep_heading_eq {input : List Nat} {parent : Nat} {st : ParseState}
    (hnb : st.cursor + nspacesAt input st.cursor ≠ lineEndAt input st.cursor)
    (hlk : lineKind input st.cursor (nspacesAt input st.cursor)
      (lineEndAt input st.cursor) = .heading) :
    parseStep input parent st = .ok { st with
      ctx := setHeading (append_node st.ctx parent .H).1
        (append_node st.ctx parent .H).2
        (hashRun input (st.cursor + nspacesAt input st.cursor))
        (byteSlice input
          (st.cursor + nspacesAt input st.cursor +
            hashRun input (st.cursor + nspacesAt input st.cursor))
          (lineEndAt input st.cursor -
            (st.cursor + nspacesAt input st.cursor +
              hashRun input (st.cursor + nspacesAt input st.cursor)))),
      state := .NONE, stack := [],
      cursor := advance_row input.length (lineEndAt input st.cursor),
      normalIndent := if st.normalIndent.isNone
        then some (nspacesAt input st.cursor) else st.normalIndent } := by
  simp only [parseStep]
  rw [if_neg hnb, hlk]

/-- C5: `drmd_to_html` on the exact input `"+ a\n  o b\n o c\n"` succeeds
with error code 0 and produces exactly the bytes
`"<ul>\n<li>a <ul>\n<li>b</ul>\n</ul>\n<ul>\n<li>c</ul>\n"`: the
deeper-indented bullet opens a nested list attached to the previous item,
and the final bullet, whose indentation is below every open frame, starts a
fresh top-level list. -/
theorem claim_C5_nested_list_scenario :
    drmd_to_html [43, 32, 97, 10, 32, 32, 111, 32, 98, 10, 32, 111, 32, 99, 10] =
      (0, [60, 117, 108, 62, 10, 60, 108, 105, 62, 97, 32,
           60, 117, 108, 62, 10, 60, 108, 105, 62, 98,
           60, 47, 117, 108, 62, 10, 60, 47, 117, 108, 62, 10,
           60, 117, 108, 62, 10, 60, 108, 105, 62, 99,
           60, 47, 117, 108, 62, 10]) := by
  rfl

/-- Unfolding of the quote branch of `parseStep` when no quote is open. -/
theorem parseStep_quote_eq {input : List Nat} {parent : Nat} {st : ParseState}
    (hnb : st.cursor + nspacesAt input st.cursor ≠ lineEndAt input st.cursor)
    (hlk : lineKind input st.cursor (nspacesAt input st.cursor)
      (lineEndAt input st.cursor) = .quote)
    (hq : st.state ≠ .QUOTE) :
    parseStep input parent st = .ok { st with
      ctx := (append_string (append_node st.ctx parent .QUOTE).1
        (append_node st.ctx parent .QUOTE).2
        (stripped_view input (st.cursor + 1)
          (lineEndAt input st.cursor - st.cursor - 1))).1,
      container := (append_node st.ctx parent .QUOTE).2,
      state := .QUOTE, stack := [],
      cursor := advance_row input.length (lineEndAt input st.cursor),
      normalIndent := if st.normalIndent.isNone
        then some (nspacesAt input st.cursor) else st.normalIndent } := by
  simp only [parseStep]
  rw [if_neg hnb, hlk, if_pos hq]

/-- C2 (corrected): an input line whose first non-whitespace byte is `#`
emits a standalone `H` node (parser state reset to NONE, list stack
cleared) whose `heading_level` is the count of consecutive `#` bytes at the
first non-whitespace position and whose header text is the raw remainder of
the line after that `#` run, NOT stripped of surrounding whitespace (the C
code stores `firstchar + level` to `line_end` verbatim, so `"# hello "`
keeps the leading and trailing space: the header is `" hello "`). -/
theorem claim_C2_heading_raw_header (input : List Nat) (parent : Nat)
    (st : ParseState)
    (hpar : parent < st.ctx.nodes.length)
    (hnb : st.cursor + nspacesAt input st.cursor ≠ lineEndAt input st.cursor)
    (hlk : lineKind input st.cursor (nspacesAt input st.cursor)
      (lineEndAt input st.cursor) = .heading) :
    ∃ st', parseStep input parent st = .ok st' ∧
      st'.state = .NONE ∧ st'.stack = [] ∧
      st'.ctx.nodes.length = st.ctx.nodes.length + 1 ∧
      get_node st'.ctx st.ctx.nodes.length =
        ⟨.H,
         byteSlice input (st.cursor + nspacesAt input st.cursor +
             hashRun input (st.cursor + nspacesAt input st.cursor))
           (lineEndAt input st.cursor -
             (st.cursor + nspacesAt input st.cursor +
               hashRun input (st.cursor + nspacesAt input st.cursor))),
         [],
         hashRun input (st.cursor + nspacesAt input st.cursor)⟩ ∧
      (get_node st'.ctx parent).children =
        (get_node st.ctx parent).children ++ [st.ctx.nodes.length] := by
  obtain ⟨h2, hlen, hnew, hpch, hoth⟩ := @append_node_spec st.ctx parent .H hpar
  obtain ⟨hsl, hsn, hso⟩ := @setHeading_spec (append_node st.ctx parent .H).1
    st.ctx.nodes.length
    (hashRun input (st.cursor + nspacesAt input st.cursor))
    (byteSlice input (st.cursor + nspacesAt input st.cursor +
        hashRun input (st.cursor + nspacesAt input st.cursor))
      (lineEndAt input st.cursor - (st.cursor + nspacesAt input st.cursor +
        hashRun input (st.cursor + nspacesAt input st.cursor))))
    (by rw [hlen]; omega)
  refine ⟨_, parseStep_heading_eq hnb hlk, rfl, rfl, ?_, ?_, ?_⟩
  · show (setHeading (append_node st.ctx parent .H).1 st.ctx.nodes.length
        (hashRun input (st.cursor + nspacesAt input st.cursor))
        (byteSlice input (st.cursor + nspacesAt input st.cursor +
            hashRun input (st.cursor + nspacesAt input st.cursor))
          (lineEndAt input st.cursor - (st.cursor + nspacesAt input st.cursor +
            hashRun input (st.cursor + nspacesAt input st.cursor))))).nodes.length =
      st.ctx.nodes.length + 1
    rw [hsl, hlen]
  · show get_node (setHeading (append_node st.ctx parent .H).1 st.ctx.nodes.length
        (hashRun input (st.cursor + nspacesAt input st.cursor))
        (byteSlice input (st.cursor + nspacesAt input st.cursor +
            hashRun input (st.cursor + nspacesAt input st.cursor))
          (lineEndAt input st.cursor - (st.cursor + nspacesAt input st.cursor +
            hashRun input (st.cursor + nspacesAt input st.cursor)))))
        st.ctx.nodes.length =
      ⟨.H,
       byteSlice input (st.cursor + nspacesAt input st.cursor +
           hashRun input (st.cursor + nspacesAt input st.cursor))
         (lineEndAt input st.cursor - (st.cursor + nspacesAt input st.cursor +
           hashRun input (st.cursor + nspacesAt input st.cursor))),
       [],
       hashRun input (st.cursor + nspacesAt input st.cursor)⟩
    rw [hsn, hnew]
  · show (get_node (setHeading (append_node st.ctx parent .H).1 st.ctx.nodes.length
        (hashRun input (st.cursor + nspacesAt input st.cursor))
        (byteSlice input (st.cursor + nspacesAt input st.cursor +
            hashRun input (st.cursor + nspacesAt input st.cursor))
          (lineEndAt input st.cursor - (st.cursor + nspacesAt input st.cursor +
            hashRun input (st.cursor + nspacesAt input st.cursor)))))
        parent).children =
      (get_node st.ctx parent).children ++ [st.ctx.nodes.length]
    rw [hso parent (by omega), hpch]

/-- Witness for C2 (corrected): on the input `"#a\n"` at the initial state,
one parse step appends an `H` node with level 1 and header `"a"` under the
root. -/
theorem claim_C2_heading_raw_header_witness :
    ∃ st', parseStep [35, 97, 10] 0 initialState = .ok st' ∧
      st'.state = .NONE ∧ st'.stack = [] ∧
      st'.ctx.nodes.length = 2 ∧
      get_node st'.ctx 1 = ⟨.H, [97], [], 1⟩ ∧
      (get_node st'.ctx 0).children = [1] :=
  claim_C2_heading_raw_header [35, 97, 10] 0 initialState (by decide) (by decide)
    (by decide)

/-- Counterexample to C2 as stated: parsing `"# hello \n"` yields an `H`
node whose header text is `" hello "` — the remainder of the line with its
surrounding whitespace intact — not the stripped text `"hello"` the claim
asserts. -/
theorem claim_C2_counterexample :
    (match drmdParse [35, 32, 104, 101, 108, 108, 111, 32, 10] with
      | .ok ctx => some ((get_node ctx 1).type, (get_node ctx 1).heading_level,
          (get_node ctx 1).header)
      | .error _ => none) =
      some (.H, 1, [32, 104, 101, 108, 108, 111, 32]) ∧
    ([32, 104, 101, 108, 108, 111, 32] : List Nat) ≠ [104, 101, 108, 108, 111] :=
  ⟨rfl, by decide⟩

/-- Unfolding of the quote branch of `parseStep` when a quote is already
open: the stripped text is appended to the existing container; container
and stack are unchanged. -/
theorem parseStep_quote_cont_eq {input : List Nat} {parent : Nat}
    {st : ParseState}
    (hnb : st.cursor + nspacesAt input st.cursor ≠ lineEndAt input st.cursor)
    (hlk : lineKind input st.cursor (nspacesAt input st.cursor)
      (lineEndAt input st.cursor) = .quote)
    (hq : st.state = .QUOTE) :
    parseStep input parent st = .ok { st with
      ctx := (append_string st.ctx st.container
        (stripped_view input (st.cursor + 1)
          (lineEndAt input st.cursor - st.cursor - 1))).1,
      state := .QUOTE,
      cursor := advance_row input.length (lineEndAt input st.cursor),
      normalIndent := if st.normalIndent.isNone
        then some (nspacesAt input st.cursor) else st.normalIndent } := by
  simp only [parseStep]
  rw [if_neg hnb, hlk, if_neg (not_not_intro hq)]

/-- Concrete mid-parse arena for the continuation half of the C3 witness:
a root with an open `QUOTE` holding one `STRING`. -/
def c3wCtx : DrMdContext :=
  ⟨[⟨.MD, [], [1], 0⟩, ⟨.QUOTE, [], [2], 0⟩, ⟨.STRING, [97], [], 0⟩]⟩

/-- Concrete mid-parse state for the continuation half of the C3 witness:
the `QUOTE` node 1 is the open container. -/
def c3wState : ParseState :=
  { ctx := c3wCtx, cursor := 0, state := .QUOTE, stack := [],
    container := 1, normalIndent := some 0 }

/-- C3 (corrected): on EVERY quote line (first non-whitespace byte `>`),
the text appended as a `STRING` child of the current `QUOTE` node is
`stripped_view(line_start + 1, line_end)` — the strip starts one byte
after the START of the line, not after its first non-whitespace byte.
First conjunct: with no quote open, the line opens a fresh `QUOTE` under
`parent` and the stripped text becomes its first `STRING` child.  Second
conjunct: with a quote already open, the same stripped text is appended to
the open `QUOTE` container (the same C statement serves both cases).  When
the line is unindented this removes the leading `>` as the spec says, but
on an indented quote line only the first indentation byte is dropped and
the `>` itself survives into the stored child text. -/
theorem claim_C3_quote_strip_from_line_start (input : List Nat) (parent : Nat)
    (st : ParseState)
    (hnb : st.cursor + nspacesAt input st.cursor ≠ lineEndAt input st.cursor)
    (hlk : lineKind input st.cursor (nspacesAt input st.cursor)
      (lineEndAt input st.cursor) = .quote) :
    (st.state ≠ .QUOTE → parent < st.ctx.nodes.length →
      ∃ st', parseStep input parent st = .ok st' ∧ st'.state = .QUOTE ∧
        st'.ctx.nodes.length = st.ctx.nodes.length + 2 ∧
        get_node st'.ctx st.ctx.nodes.length =
          ⟨.QUOTE, [], [st.ctx.nodes.length + 1], 0⟩ ∧
        get_node st'.ctx (st.ctx.nodes.length + 1) =
          ⟨.STRING, stripped_view input (st.cursor + 1)
            (lineEndAt input st.cursor - st.cursor - 1), [], 0⟩ ∧
        (get_node st'.ctx parent).children =
          (get_node st.ctx parent).children ++ [st.ctx.nodes.length]) ∧
    (st.state = .QUOTE → st.container < st.ctx.nodes.length →
      ∃ st', parseStep input parent st = .ok st' ∧ st'.state = .QUOTE ∧
        st'.container = st.container ∧ st'.stack = st.stack ∧
        st'.ctx.nodes.length = st.ctx.nodes.length + 1 ∧
        get_node st'.ctx st.ctx.nodes.length =
          ⟨.STRING, stripped_view input (st.cursor + 1)
            (lineEndAt input st.cursor - st.cursor - 1), [], 0⟩ ∧
        get_node st'.ctx st.container =
          { get_node st.ctx st.container with children :=
              (get_node st.ctx st.container).children ++
                [st.ctx.nodes.length] }) := by
  constructor
  intro hq hpar
  obtain ⟨h2, hlen, hnew, hpch, hoth⟩ :=
    @append_node_spec st.ctx parent .QUOTE hpar
  obtain ⟨b2, blen, bnew, bpch, both⟩ :=
    @append_string_spec (append_node st.ctx parent .QUOTE).1
      st.ctx.nodes.length
      (stripped_view input (st.cursor + 1)
        (lineEndAt input st.cursor - st.cursor - 1))
      (by rw [hlen]; omega)
  rw [hlen] at blen bnew bpch both
  refine ⟨_, parseStep_quote_eq hnb hlk hq, rfl, ?_, ?_, ?_, ?_⟩
  · show (append_string (append_node st.ctx parent .QUOTE).1
        st.ctx.nodes.length
        (stripped_view input (st.cursor + 1)
          (lineEndAt input st.cursor - st.cursor - 1))).1.nodes.length =
      st.ctx.nodes.length + 2
    rw [blen]
  · show get_node (append_string (append_node st.ctx parent .QUOTE).1
        st.ctx.nodes.length
        (stripped_view input (st.cursor + 1)
          (lineEndAt input st.cursor - st.cursor - 1))).1
        st.ctx.nodes.length =
      ⟨.QUOTE, [], [st.ctx.nodes.length + 1], 0⟩
    rw [bpch, hnew]
    rfl
  · show get_node (append_string (append_node st.ctx parent .QUOTE).1
        st.ctx.nodes.length
        (stripped_view input (st.cursor + 1)
          (lineEndAt input st.cursor - st.cursor - 1))).1
        (st.ctx.nodes.length + 1) =
      ⟨.STRING, stripped_view input (st.cursor + 1)
        (lineEndAt input st.cursor - st.cursor - 1), [], 0⟩
    exact bnew
  · show (get_node (append_string (append_node st.ctx parent .QUOTE).1
        st.ctx.nodes.length
        (stripped_view input (st.cursor + 1)
          (lineEndAt input st.cursor - st.cursor - 1))).1
        parent).children =
      (get_node st.ctx parent).children ++ [st.ctx.nodes.length]
    rw [both parent (by omega) (by omega), hpch]
  intro hq hcont
  obtain ⟨b2, blen, bnew, bpch, both⟩ :=
    @append_string_spec st.ctx st.container
      (stripped_view input (st.cursor + 1)
        (lineEndAt input st.cursor - st.cursor - 1)) hcont
  refine ⟨_, parseStep_quote_cont_eq hnb hlk hq, rfl, rfl, rfl, ?_, ?_, ?_⟩
  · show (append_string st.ctx st.container
        (stripped_view input (st.cursor + 1)
          (lineEndAt input st.cursor - st.cursor - 1))).1.nodes.length =
      st.ctx.nodes.length + 1
    exact blen
  · show get_node (append_string st.ctx st.container
        (stripped_view input (st.cursor + 1)
          (lineEndAt input st.cursor - st.cursor - 1))).1
        st.ctx.nodes.length =
      ⟨.STRING, stripped_view input (st.cursor + 1)
        (lineEndAt input st.cursor - st.cursor - 1), [], 0⟩
    exact bnew
  · show get_node (append_string st.ctx st.container
        (stripped_view input (st.cursor + 1)
          (lineEndAt input st.cursor - st.cursor - 1))).1 st.container =
      { get_node st.ctx st.container with children :=
          (get_node st.ctx st.container).children ++ [st.ctx.nodes.length] }
    exact bpch

/-- Witness for C3 (corrected), both halves: on the unindented quote line
`"> a\n"` at the initial state, one parse step opens a `QUOTE` under the
root whose `STRING` child holds exactly `"a"` (leading `>` and whitespace
gone); and on the quote line `">b\n"` with a quote already open, the
`STRING` `"b"` is appended to the open `QUOTE` container. -/
theorem claim_C3_quote_strip_witness :
    (∃ st', parseStep [62, 32, 97, 10] 0 initialState = .ok st' ∧
      st'.state = .QUOTE ∧
      st'.ctx.nodes.length = 3 ∧
      get_node st'.ctx 1 = ⟨.QUOTE, [], [2], 0⟩ ∧
      get_node st'.ctx 2 = ⟨.STRING, [97], [], 0⟩ ∧
      (get_node st'.ctx 0).children = [1]) ∧
    (∃ st', parseStep [62, 98, 10] 0 c3wState = .ok st' ∧
      st'.state = .QUOTE ∧
      st'.container = 1 ∧ st'.stack = [] ∧
      st'.ctx.nodes.length = 4 ∧
      get_node st'.ctx 3 = ⟨.STRING, [98], [], 0⟩ ∧
      get_node st'.ctx 1 = ⟨.QUOTE, [], [2, 3], 0⟩) :=
  ⟨(claim_C3_quote_strip_from_line_start [62, 32, 97, 10] 0 initialState
      (by decide) (by decide)).1 (by decide) (by decide),
   (claim_C3_quote_strip_from_line_start [62, 98, 10] 0 c3wState
      (by decide) (by decide)).2 rfl (by decide)⟩

/-- Counterexample to C3 as stated: parsing the indented quote line
`"  > foo\n"` stores the `STRING` child `"> foo"` under the `QUOTE` node —
the text still contains the `>` byte and is not the claimed `"foo"`. -/
theorem claim_C3_counterexample :
    (match drmdParse [32, 32, 62, 32, 102, 111, 111, 10] with
      | .ok ctx => some ((get_node ctx 1).type, (get_node ctx 2).type,
          (get_node ctx 2).header)
      | .error _ => none) =
      some (.QUOTE, .STRING, [62, 32, 102, 111, 111]) ∧
    (62 : Nat) ∈ [62, 32, 102, 111, 111] ∧
    ([62, 32, 102, 111, 111] : List Nat) ≠ [102, 111, 111] :=
  ⟨rfl, by decide, by decide⟩

/-- Unfolding of the paragraph branch of `parseStep` in a list state when
the line's indentation differs from `normal_indent`: the stripped line is
appended to the current list item (continuation). -/
theorem parseStep_para_cont_eq {input : List Nat} {parent : Nat}
    {st : ParseState} {m : Nat}
    (hnb : st.cursor + nspacesAt input st.cursor ≠ lineEndAt input st.cursor)
    (hlk : lineKind input st.cursor (nspacesAt input st.cursor)
      (lineEndAt input st.cursor) = .para)
    (hst : st.state = .BULLET ∨ st.state = .LIST)
    (hni : st.normalIndent = some m)
    (hm : m ≠ nspacesAt input st.cursor) :
    parseStep input parent st = .ok { st with
      ctx := (append_string st.ctx (st.stack.headD ⟨0, 0, 0, .NONE⟩).item
        (stripped_view input (st.cursor + nspacesAt input st.cursor)
          (lineEndAt input st.cursor - st.cursor -
            nspacesAt input st.cursor))).1,
      cursor := advance_row input.length (lineEndAt input st.cursor),
      normalIndent := some m } := by
  rcases hst with h | h <;>
    simp [parseStep, if_neg hnb, hlk, hni, h, hm]

/-- Unfolding of the paragraph branch of `parseStep` in a list state when
the line's indentation equals `normal_indent`: a fresh `PARA` is opened
under `parent` and the stripped line becomes its first `STRING` child. -/
theorem parseStep_para_new_eq {input : List Nat} {parent : Nat}
    {st : ParseState} {m : Nat}
    (hnb : st.cursor + nspacesAt input st.cursor ≠ lineEndAt input st.cursor)
    (hlk : lineKind input st.cursor (nspacesAt input st.cursor)
      (lineEndAt input st.cursor) = .para)
    (hst : st.state = .BULLET ∨ st.state = .LIST)
    (hni : st.normalIndent = some m)
    (hm : m = nspacesAt input st.cursor) :
    parseStep input parent st = .ok { st with
      ctx := (append_string (append_node st.ctx parent .PARA).1
        (append_node st.ctx parent .PARA).2
        (stripped_view input (st.cursor + nspacesAt input st.cursor)
          (lineEndAt input st.cursor - st.cursor -
            nspacesAt input st.cursor))).1,
      container := (append_node st.ctx parent .PARA).2,
      state := .PARA, stack := [],
      cursor := advance_row input.length (lineEndAt input st.cursor),
      normalIndent := some m } := by
  rcases hst with h | h <;>
    simp [parseStep, if_neg hnb, hlk, hni, h, hm]

/-- C4 (corrected): while a list is being extended (state BULLET/LIST with
frames on the stack), a non-list, non-blank paragraph-candidate line is
appended as a `STRING` continuation of the current list item exactly when
its indentation DIFFERS from `normal_indent` (the indentation recorded at
the document's first non-blank line); when its indentation equals
`normal_indent` it starts a fresh paragraph instead.  The current frame's
indentation plays no role in this decision (the C condition is
`loc.nspaces != normal_indent`, not a comparison with
`stack[si].indentation`). -/
theorem claim_C4_list_continuation (input : List Nat) (parent : Nat)
    (st : ParseState) (m : Nat) (top : Frame) (rest : List Frame)
    (hpar : parent < st.ctx.nodes.length)
    (hst : st.state = .BULLET ∨ st.state = .LIST)
    (hni : st.normalIndent = some m)
    (hstack : st.stack = top :: rest)
    (hitm : top.item < st.ctx.nodes.length)
    (hnb : st.cursor + nspacesAt input st.cursor ≠ lineEndAt input st.cursor)
    (hlk : lineKind input st.cursor (nspacesAt input st.cursor)
      (lineEndAt input st.cursor) = .para) :
    (m ≠ nspacesAt input st.cursor →
      ∃ st', parseStep input parent st = .ok st' ∧
        st'.state = st.state ∧ st'.stack = st.stack ∧
        st'.ctx.nodes.length = st.ctx.nodes.length + 1 ∧
        get_node st'.ctx st.ctx.nodes.length =
          ⟨.STRING, stripped_view input (st.cursor + nspacesAt input st.cursor)
            (lineEndAt input st.cursor - st.cursor - nspacesAt input st.cursor),
           [], 0⟩ ∧
        get_node st'.ctx top.item =
          { get_node st.ctx top.item with children :=
              (get_node st.ctx top.item).children ++ [st.ctx.nodes.length] }) ∧
    (m = nspacesAt input st.cursor →
      ∃ st', parseStep input parent st = .ok st' ∧
        st'.state = .PARA ∧ st'.stack = [] ∧
        st'.ctx.nodes.length = st.ctx.nodes.length + 2 ∧
        get_node st'.ctx st.ctx.nodes.length =
          ⟨.PARA, [], [st.ctx.nodes.length + 1], 0⟩ ∧
        get_node st'.ctx (st.ctx.nodes.length + 1) =
          ⟨.STRING, stripped_view input (st.cursor + nspacesAt input st.cursor)
            (lineEndAt input st.cursor - st.cursor - nspacesAt input st.cursor),
           [], 0⟩ ∧
        (get_node st'.ctx parent).children =
          (get_node st.ctx parent).children ++ [st.ctx.nodes.length]) := by
  have hhead : (st.stack.headD ⟨0, 0, 0, .NONE⟩).item = top.item := by
    rw [hstack]; rfl
  constructor
  · intro hm
    obtain ⟨b2, blen, bnew, bpch, both⟩ :=
      @append_string_spec st.ctx top.item
        (stripped_view input (st.cursor + nspacesAt input st.cursor)
          (lineEndAt input st.cursor - st.cursor - nspacesAt input st.cursor))
        hitm
    refine ⟨_, parseStep_para_cont_eq hnb hlk hst hni hm, rfl, rfl, ?_, ?_, ?_⟩
    · show (append_string st.ctx (st.stack.headD ⟨0, 0, 0, .NONE⟩).item
          (stripped_view input (st.cursor + nspacesAt input st.cursor)
            (lineEndAt input st.cursor - st.cursor -
              nspacesAt input st.cursor))).1.nodes.length =
        st.ctx.nodes.length + 1
      rw [hhead, blen]
    · show get_node (append_string st.ctx
          (st.stack.headD ⟨0, 0, 0, .NONE⟩).item
          (stripped_view input (st.cursor + nspacesAt input st.cursor)
            (lineEndAt input st.cursor - st.cursor -
              nspacesAt input st.cursor))).1 st.ctx.nodes.length =
        ⟨.STRING, stripped_view input (st.cursor + nspacesAt input st.cursor)
          (lineEndAt input st.cursor - st.cursor - nspacesAt input st.cursor),
         [], 0⟩
      rw [hhead, bnew]
    · show get_node (append_string st.ctx
          (st.stack.headD ⟨0, 0, 0, .NONE⟩).item
          (stripped_view input (st.cursor + nspacesAt input st.cursor)
            (lineEndAt input st.cursor - st.cursor -
              nspacesAt input st.cursor))).1 top.item =
        { get_node st.ctx top.item with children :=
            (get_node st.ctx top.item).children ++ [st.ctx.nodes.length] }
      rw [hhead, bpch]
  · intro hm
    obtain ⟨h2, hlen, hnew, hpch, hoth⟩ :=
      @append_node_spec st.ctx parent .PARA hpar
    obtain ⟨b2, blen, bnew, bpch, both⟩ :=
      @append_string_spec (append_node st.ctx parent .PARA).1
        st.ctx.nodes.length
        (stripped_view input (st.cursor + nspacesAt input st.cursor)
          (lineEndAt input st.cursor - st.cursor - nspacesAt input st.cursor))
        (by rw [hlen]; omega)
    rw [hlen] at blen bnew bpch both
    refine ⟨_, parseStep_para_new_eq hnb hlk hst hni hm, rfl, rfl, ?_, ?_, ?_, ?_⟩
    · show (append_string (append_node st.ctx parent .PARA).1
          st.ctx.nodes.length
          (stripped_view input (st.cursor + nspacesAt input st.cursor)
            (lineEndAt input st.cursor - st.cursor -
              nspacesAt input st.cursor))).1.nodes.length =
        st.ctx.nodes.length + 2
      rw [blen]
    · show get_node (append_string (append_node st.ctx parent .PARA).1
          st.ctx.nodes.length
          (stripped_view input (st.cursor + nspacesAt input st.cursor)
            (lineEndAt input st.cursor - st.cursor -
              nspacesAt input st.cursor))).1 st.ctx.nodes.length =
        ⟨.PARA, [], [st.ctx.nodes.length + 1], 0⟩
      rw [bpch, hnew]
      rfl
    · show get_node (append_string (append_node st.ctx parent .PARA).1
          st.ctx.nodes.length
          (stripped_view input (st.cursor + nspacesAt input st.cursor)
            (lineEndAt input st.cursor - st.cursor -
              nspacesAt input st.cursor))).1 (st.ctx.nodes.length + 1) =
        ⟨.STRING, stripped_view input (st.cursor + nspacesAt input st.cursor)
          (lineEndAt input st.cursor - st.cursor - nspacesAt input st.cursor),
         [], 0⟩
      exact bnew
    · show (get_node (append_string (append_node st.ctx parent .PARA).1
          st.ctx.nodes.length
          (stripped_view input (st.cursor + nspacesAt input st.cursor)
            (lineEndAt input st.cursor - st.cursor -
              nspacesAt input st.cursor))).1 parent).children =
        (get_node st.ctx parent).children ++ [st.ctx.nodes.length]
      rw [both parent (by omega) (by omega), hpch]

/-- Concrete mid-parse arena for the C4 witness: a root, an open bullet
list, its item, and the item's first string. -/
def c4wCtx : DrMdContext :=
  ⟨[⟨.MD, [], [1], 0⟩, ⟨.BULLETS, [], [2], 0⟩,
    ⟨.LIST_ITEM, [], [3], 0⟩, ⟨.STRING, [97], [], 0⟩]⟩

/-- Concrete mid-parse state for the C4 witness: extending the bullet list
whose frame has indentation 2, with `normal_indent = 0`. -/
def c4wState : ParseState :=
  { ctx := c4wCtx, cursor := 0, state := .BULLET,
    stack := [⟨1, 2, 2, .BULLET⟩], container := invalidHandle,
    normalIndent := some 0 }

/-- Witness for C4 (corrected): the line `" b\n"` (indentation 1, differing
from `normal_indent = 0`) is appended as the `STRING` continuation `"b"` of
the open list item. -/
theorem claim_C4_list_continuation_witness :
    ∃ st', parseStep [32, 98, 10] 0 c4wState = .ok st' ∧
      st'.state = .BULLET ∧ st'.stack = [⟨1, 2, 2, .BULLET⟩] ∧
      st'.ctx.nodes.length = 5 ∧
      get_node st'.ctx 4 = ⟨.STRING, [98], [], 0⟩ ∧
      get_node st'.ctx 2 = ⟨.LIST_ITEM, [], [3, 4], 0⟩ :=
  (claim_C4_list_continuation [32, 98, 10] 0 c4wState 0 ⟨1, 2, 2, .BULLET⟩ []
    (by decide) (Or.inl rfl) rfl rfl (by decide) (by decide) (by decide)).1
    (by decide)

/-- Counterexample to C4 as stated: in `"x\n  - a\n b\n"` the line `" b"`
has indentation 1, NOT strictly greater than the current frame's
indentation 2, so the claim predicts a paragraph; the parser nevertheless
appends `"b"` as a `STRING` continuation of the list item (because
1 differs from `normal_indent = 0`). -/
theorem claim_C4_counterexample :
    (match drmdParse [120, 10, 32, 32, 45, 32, 97, 10, 32, 98, 10] with
      | .ok ctx => some ((get_node ctx 4).type, (get_node ctx 4).children,
          (get_node ctx 6).type, (get_node ctx 6).header)
      | .error _ => none) =
      some (.LIST_ITEM, [5, 6], .STRING, [98]) ∧
    ¬ (1 : Nat) > 2 :=
  ⟨rfl, by decide⟩

/-- C9 (confirmed): at any cursor position whose remaining bytes up to the
next `\n`/NUL/end-of-input are all in `{' ', '\t', '\r'}`, `analyze_line`
satisfies `line_start + nspaces = line_end`: the leading-whitespace count
reaches exactly the line terminator. -/
theorem claim_C9_blank_line_analysis (input : List Nat) (cursor : Nat)
    (h : ∀ b ∈ (input.drop cursor).takeWhile isNotEol, isLineWs b = true) :
    cursor + (analyze_line input cursor).1 = (analyze_line input cursor).2 :=
  (analyze_line_blank h).symm

/-- Witness for C9: at cursor 0 of `"  \t\r\nx"`, a whitespace-only line,
`analyze_line` reports `nspaces = 4` and `line_end = 4 = 0 + 4`. -/
theorem claim_C9_blank_line_analysis_witness :
    0 + (analyze_line [32, 32, 9, 13, 10, 120] 0).1 =
      (analyze_line [32, 32, 9, 13, 10, 120] 0).2 :=
  claim_C9_blank_line_analysis [32, 32, 9, 13, 10, 120] 0 (by decide)

/-- C7 (confirmed): on any text containing none of `[`, `-`, `<`, `>`, `&`
and no byte below 32 (bytes 128..255 allowed), the scalar escape writer
appends a byte-for-byte copy of the text, and all three vector builds
(x86, NEON, WASM) produce the identical output. -/
theorem claim_C7_escape_identity_on_clean_text (t : List Nat)
    (h : ∀ c ∈ t, cleanByte c) :
    write_link_escaped_str_slow t = t ∧
    write_link_escaped_str t = t ∧
    write_link_escaped_str_neon t = t ∧
    write_link_escaped_str_wasm t = t :=
  ⟨esc_slow_copy h, escVec_clean t.length t h, escVec_clean t.length t h,
   escVec_clean t.length t h⟩

/-- Witness for C7: the text `"h", 200, "o"` (including a byte above 127)
is reproduced verbatim by the scalar writer and by every vector build. -/
theorem claim_C7_escape_identity_witness :
    write_link_escaped_str_slow [104, 200, 111] = [104, 200, 111] ∧
    write_link_escaped_str [104, 200, 111] = [104, 200, 111] ∧
    write_link_escaped_str_neon [104, 200, 111] = [104, 200, 111] ∧
    write_link_escaped_str_wasm [104, 200, 111] = [104, 200, 111] :=
  claim_C7_escape_identity_on_clean_text [104, 200, 111]
    (by intro c hc; fin_cases hc <;> (unfold cleanByte; decide))

/-- The only error the list-stack resolution can raise is the OOM code 1
(16-frame stack overflow). -/
theorem listResolve_error {ctx : DrMdContext} {parent : Nat} {b : MState}
    {ns : Nat} {stack : List Frame} {e : Int}
    (h : listResolve ctx parent b ns stack = .error e) : e = 1 := by
  unfold listResolve at h
  repeat' split at h
  all_goals first
    | exact ((Except.error.inj h)).symm
    | exact Except.noConfusion h

/-- The only error a list line can raise is the OOM code 1. -/
theorem parseListLine_error {input : List Nat} {parent : Nat}
    {st : ParseState} {b : MState} {pl ns le : Nat} {e : Int}
    (h : parseListLine input parent st b pl ns le = .error e) : e = 1 := by
  unfold parseListLine at h
  repeat' split at h
  all_goals first
    | exact Except.noConfusion h
    | exact ((Except.error.inj h)).symm ▸ listResolve_error (by assumption)
    | exact ((Except.error.inj h)).symm

/-- The only error a single parse step can raise is the OOM code 1. -/
theorem parseStep_error {input : List Nat} {parent : Nat} {st : ParseState}
    {e : Int} (h : parseStep input parent st = .error e) : e = 1 := by
  simp only [parseStep] at h
  by_cases hb : st.cursor + nspacesAt input st.cursor = lineEndAt input st.cursor
  · rw [if_pos hb] at h
    exact Except.noConfusion h
  · rw [if_neg hb] at h
    rcases hlk : lineKind input st.cursor (nspacesAt input st.cursor)
        (lineEndAt input st.cursor) with pl | _ | pl | _ | _ | _ | _ <;>
      rw [hlk] at h <;>
      repeat' split at h
    all_goals first
      | exact Except.noConfusion h
      | exact parseListLine_error h

/-- The only error the parser loop can raise is the OOM code 1. -/
theorem parse_md_node_error {input : List Nat} {parent : Nat} :
    ∀ (fuel : Nat) (st : ParseState) (e : Int),
      parse_md_node input parent fuel st = .error e → e = 1 := by
  intro fuel
  induction fuel with
  | zero =>
    intro st e h
    exact (Except.error.inj h).symm
  | succ f ih =>
    intro st e h
    simp only [parse_md_node] at h
    split at h
    · exact Except.noConfusion h
    · split at h
      · next e1 heq =>
        exact (Except.error.inj h) ▸ parseStep_error heq
      · exact ih _ _ h

/-- An erroring sequential render names a child whose render errored. -/
theorem seqRender_error {r : Nat → Except Int (List Nat)}
    {before between afterEach : List Nat} :
    ∀ (first : Bool) (l : List Nat) (e : Int),
      seqRender r before between afterEach first l = .error e →
      ∃ h ∈ l, r h = .error e := by
  intro first l
  induction l generalizing first with
  | nil => intro e h; exact Except.noConfusion h
  | cons x t ih =>
    intro e h
    simp only [seqRender] at h
    split at h
    · next e1 heq =>
      exact ⟨x, List.mem_cons_self x t, (Except.error.inj h) ▸ heq⟩
    · split at h
      · next e1 heq =>
        obtain ⟨c, hc1, hc2⟩ := ih false e1 heq
        exact ⟨c, List.mem_cons_of_mem x hc1, (Except.error.inj h) ▸ hc2⟩
      · exact Except.noConfusion h

/-- The only errors the renderer can raise are the recursion code 1 and the
invalid-node code -1. -/
theorem render_node_error :
    ∀ (fuel : Nat) (ctx : DrMdContext) (idx depth : Nat) (e : Int),
      render_node fuel ctx idx depth = .error e → e = 1 ∨ e = -1 := by
  intro fuel
  induction fuel with
  | zero =>
    intro ctx idx depth e h
    exact Or.inl (Except.error.inj h).symm
  | succ f ih =>
    intro ctx idx depth e h
    simp only [render_node] at h
    repeat' split at h
    all_goals try exact Except.noConfusion h
    all_goals try (obtain ⟨c, hc1, hc2⟩ := seqRender_error _ _ _ h
                   exact ih _ _ _ _ hc2)
    all_goals (injection h with h2; subst h2)
    all_goals try decide
    all_goals (rename_i heq
               obtain ⟨c, hc1, hc2⟩ := seqRender_error _ _ _ heq
               exact ih _ _ _ _ hc2)

/-- Seventeen bullet lines of strictly increasing indentation: the
seventeenth push overflows the 16-frame list stack, so parsing fails with
the OOM code. -/
def overflowListInput : List Nat :=
  [43, 32, 97, 10, 32, 43, 32, 97, 10, 32, 32, 43, 32, 97, 10, 32, 32, 32, 43, 32, 97, 10, 32, 32, 32, 32, 43, 32, 97, 10, 32, 32, 32, 32, 32, 43, 32, 97, 10, 32, 32, 32, 32, 32, 32, 43, 32, 97, 10, 32, 32, 32, 32, 32, 32, 32, 43, 32, 97, 10, 32, 32, 32, 32, 32, 32, 32, 32, 43, 32, 97, 10, 32, 32, 32, 32, 32, 32, 32, 32, 32, 43, 32, 97, 10, 32, 32, 32, 32, 32, 32, 32, 32, 32, 32, 43, 32, 97, 10, 32, 32, 32, 32, 32, 32, 32, 32, 32, 32, 32, 43, 32, 97, 10, 32, 32, 32, 32, 32, 32, 32, 32, 32, 32, 32, 32, 43, 32, 97, 10, 32, 32, 32, 32, 32, 32, 32, 32, 32, 32, 32, 32, 32, 43, 32, 97, 10, 32, 32, 32, 32, 32, 32, 32, 32, 32, 32, 32, 32, 32, 32, 43, 32, 97, 10, 32, 32, 32, 32, 32, 32, 32, 32, 32, 32, 32, 32, 32, 32, 32, 43, 32, 97, 10, 32, 32, 32, 32, 32, 32, 32, 32, 32, 32, 32, 32, 32, 32, 32, 32, 43, 32, 97, 10]

/-- Ten bullet lines of strictly increasing indentation: the parser accepts
them (ten frames fit in the 16-frame stack) but the rendered tree is 21
levels deep, beyond the depth-20 render cap. -/
def deepListInput : List Nat :=
  [43, 32, 97, 10, 32, 43, 32, 97, 10, 32, 32, 43, 32, 97, 10, 32, 32, 32, 43, 32, 97, 10, 32, 32, 32, 32, 43, 32, 97, 10, 32, 32, 32, 32, 32, 43, 32, 97, 10, 32, 32, 32, 32, 32, 32, 43, 32, 97, 10, 32, 32, 32, 32, 32, 32, 32, 43, 32, 97, 10, 32, 32, 32, 32, 32, 32, 32, 32, 43, 32, 97, 10, 32, 32, 32, 32, 32, 32, 32, 32, 32, 43, 32, 97, 10]

/-- C1 (confirmed): `drmd_to_html` returns 0 on success, and its only
error codes are 1 (OOM / recursion) and -1 (invalid node), both nonzero; on
every erroring input the caller-visible output has length 0. -/
theorem claim_C1_error_codes_and_empty_output (input : List Nat) (e : Int)
    (out : List Nat) (h : drmd_to_html input = (e, out)) :
    e = 0 ∨ ((e = 1 ∨ e = -1) ∧ out = []) := by
  unfold drmd_to_html at h
  split at h
  · next e1 heq =>
    right
    obtain ⟨he, hout⟩ := Prod.mk.injEq .. ▸ h
    refine ⟨Or.inl ?_, hout.symm⟩
    rw [← he]
    unfold drmdParse at heq
    exact parse_md_node_error _ _ _ heq
  · next ctx heq =>
    split at h
    · next e1 heq2 =>
      right
      obtain ⟨he, hout⟩ := Prod.mk.injEq .. ▸ h
      refine ⟨?_, hout.symm⟩
      rw [← he]
      exact render_node_error _ _ _ _ _ heq2
    · next outr heq2 =>
      left
      exact ((Prod.mk.injEq .. ▸ h).1).symm

/-- Witness for C1: on seventeen nested bullet lines the list stack
overflows, `drmd_to_html` returns the nonzero code 1, and the output is
empty. -/
theorem claim_C1_error_codes_witness :
    drmd_to_html overflowListInput = (1, []) ∧
    ((1 : Int) = 0 ∨ (((1 : Int) = 1 ∨ (1 : Int) = -1) ∧ ([] : List Nat) = [])) :=
  ⟨rfl, claim_C1_error_codes_and_empty_output overflowListInput 1 [] rfl⟩

/-- C8 (confirmed): the renderer refuses any node reached at depth above
20 with error code 1; and there is a parser-producible input — ten nested
bullets, which the 16-frame parse stack accepts — on which `drmd_to_html`
actually returns this render-time error (nonzero, with empty output). -/
theorem claim_C8_render_depth_cap :
    (∀ (fuel : Nat) (ctx : DrMdContext) (idx depth : Nat), 20 < depth →
      render_node fuel ctx idx depth = .error 1) ∧
    (∃ ctx, drmdParse deepListInput = .ok ctx) ∧
    drmd_to_html deepListInput = (1, []) := by
  refine ⟨?_, ⟨_, rfl⟩, rfl⟩
  intro fuel ctx idx depth hd
  cases fuel with
  | zero => rfl
  | succ f =>
    simp only [render_node]
    rw [if_pos hd]

/-- Witness for C8: the depth cap fires concretely — rendering the root of
the initial arena at depth 21 errors with code 1. -/
theorem claim_C8_render_depth_cap_witness :
    render_node 21 initialCtx 0 21 = .error 1 :=
  claim_C8_render_depth_cap.1 21 initialCtx 0 21 (by decide)

/-- C6 (corrected): on every input on which `drmd_to_html` succeeds, the
output contains equally many occurrences of the members of each open/close
pair among `<ul>`/`</ul>`, `<ol>`/`</ol>`, `<table>`/`</table>`,
`<blockquote>`/`</blockquote>`, `<pre>`/`</pre>`, and the heading pairs
`<hC>`/`</hC>` for every level byte C EXCEPT `r` (the level-66 heading,
whose open tag coincides with the literal `<hr>` that the escape writer
passes through from user text; for that byte — and for it only — escaped
text can contribute unmatched occurrences). -/
theorem claim_C6_tag_balance (input out : List Nat)
    (h : drmd_to_html input = (0, out)) :
    ∀ p q, pairP p q → countSub p out = countSub q out := by
  unfold drmd_to_html at h
  split at h
  · next e1 heq =>
    obtain ⟨he, hout⟩ := Prod.mk.injEq .. ▸ h
    intro p q hpq
    rw [← hout,
      countSub_zero_no60 ⟨q, Or.inl hpq⟩
        (fun c hc => absurd hc (List.not_mem_nil c)),
      countSub_zero_no60 ⟨p, Or.inr hpq⟩
        (fun c hc => absurd hc (List.not_mem_nil c))]
  · next ctx heq =>
    split at h
    · next e1 heq2 =>
      obtain ⟨he, hout⟩ := Prod.mk.injEq .. ▸ h
      intro p q hpq
      rw [← hout,
        countSub_zero_no60 ⟨q, Or.inl hpq⟩
          (fun c hc => absurd hc (List.not_mem_nil c)),
        countSub_zero_no60 ⟨p, Or.inr hpq⟩
          (fun c hc => absurd hc (List.not_mem_nil c))]
    · next outr heq2 =>
      obtain ⟨he, hout⟩ := Prod.mk.injEq .. ▸ h
      rw [← hout]
      exact (render_balanced 21 ctx 0 0 outr heq2).2

/-- Witness for C6 (corrected): `"- a\n"` renders to
`"<ul>\n<li>a</ul>\n"`, in which `<ul>` and `</ul>` each occur once. -/
theorem claim_C6_tag_balance_witness :
    countSub [60, 117, 108, 62]
        [60, 117, 108, 62, 10, 60, 108, 105, 62, 97, 60, 47, 117, 108, 62, 10] =
      countSub [60, 47, 117, 108, 62]
        [60, 117, 108, 62, 10, 60, 108, 105, 62, 97, 60, 47, 117, 108, 62, 10] :=
  claim_C6_tag_balance [45, 32, 97, 10] _ rfl _ _ pairP.ul

/-- Counterexample to C6 as stated: the paragraph `"a<hr>b\n"` renders to
`"<p>a<hr>b"`, in which the escaped user text contributes an occurrence of
the level-66 heading open tag `<hr>` with no matching `</hr>` — so the
heading pair with level byte `r` is NOT balanced, and escaped text CAN
contribute an occurrence of a heading tag. -/
theorem claim_C6_counterexample :
    drmd_to_html [97, 60, 104, 114, 62, 98, 10] =
      (0, [60, 112, 62, 97, 60, 104, 114, 62, 98]) ∧
    countSub [60, 104, 114, 62] [60, 112, 62, 97, 60, 104, 114, 62, 98] = 1 ∧
    countSub [60, 47, 104, 114, 62] [60, 112, 62, 97, 60, 104, 114, 62, 98] = 0 :=
  ⟨rfl, by decide, by decide⟩

/-- `takeWhile` over a replicated block followed by one failing byte. -/
theorem takeWhile_repl {p : Nat → Bool} {c d : Nat} (hc : p c = true)
    (hd : p d = false) :
    ∀ N, (List.replicate N c ++ [d]).takeWhile p = List.replicate N c := by
  intro N
  induction N with
  | zero => simp [hd]
  | succ n ih => simp [List.replicate_succ, List.takeWhile_cons, hc, ih]

/-- On a pure `#`-line the analyzer puts the line end after the hashes. -/
theorem lineEnd_hashes (M : Nat) :
    lineEndAt (List.replicate (M + 1) 35 ++ [10]) 0 = M + 1 := by
  have h1 : (List.replicate (M + 1) 35 ++ [10]).takeWhile isNotEol =
      List.replicate (M + 1) 35 :=
    takeWhile_repl rfl rfl (M + 1)
  have h0 : nspacesAt (List.replicate (M + 1) 35 ++ [10]) 0 = 0 := by
    rw [List.replicate_succ, List.cons_append]
    rfl
  have h2 : (List.replicate (M + 1) 35 ++ [10]).dropWhile isLineWs =
      List.replicate (M + 1) 35 ++ [10] := by
    rw [List.replicate_succ, List.cons_append, List.dropWhile_cons]
    rfl
  rw [lineEndAt, h0, List.drop_zero, h2, h1, List.length_replicate]
  omega

/-- On a pure `#`-line the hash run covers the whole line. -/
theorem hashRun_hashes (M : Nat) :
    hashRun (List.replicate (M + 1) 35 ++ [10]) 0 = M + 1 := by
  have h1 : ((List.replicate (M + 1) 35 ++ [10]).takeWhile
      (fun c => c == 35)) = List.replicate (M + 1) 35 :=
    takeWhile_repl rfl rfl (M + 1)
  rw [hashRun, List.drop_zero, h1, List.length_replicate]

/-- Parsing a line of `M + 1` hashes yields exactly a root with one `H`
child of heading level `M + 1` and empty header. -/
theorem drmdParse_hashes (M : Nat) :
    drmdParse (List.replicate (M + 1) 35 ++ [10]) =
      .ok ⟨[⟨.MD, [], [1], 0⟩, ⟨.H, [], [], M + 1⟩]⟩ := by
  have hlen : (List.replicate (M + 1) 35 ++ [10]).length = M + 2 := by simp
  have h0 : nspacesAt (List.replicate (M + 1) 35 ++ [10]) 0 = 0 := by
    rw [List.replicate_succ, List.cons_append]
    rfl
  have hle := lineEnd_hashes M
  have hhr := hashRun_hashes M
  have hnb : initialState.cursor +
      nspacesAt (List.replicate (M + 1) 35 ++ [10]) initialState.cursor ≠
      lineEndAt (List.replicate (M + 1) 35 ++ [10]) initialState.cursor := by
    show 0 + nspacesAt (List.replicate (M + 1) 35 ++ [10]) 0 ≠
      lineEndAt (List.replicate (M + 1) 35 ++ [10]) 0
    rw [h0, hle]
    omega
  have hlk : lineKind (List.replicate (M + 1) 35 ++ [10]) initialState.cursor
      (nspacesAt (List.replicate (M + 1) 35 ++ [10]) initialState.cursor)
      (lineEndAt (List.replicate (M + 1) 35 ++ [10]) initialState.cursor) =
      .heading := by
    rw [List.replicate_succ, List.cons_append]
    rfl
  have hm12 : M + 1 ≠ M + 2 := by omega
  have hc0 : initialState.cursor ≠ M + 2 := by
    show (0 : Nat) ≠ M + 2
    omega
  unfold drmdParse
  simp only [hlen]
  simp only [parse_md_node]
  rw [if_neg (by rw [hlen]; exact hc0)]
  rw [parseStep_heading_eq hnb hlk]
  simp only [initialState, h0, hle, hhr, hlen, Nat.zero_add, Nat.add_zero,
    Nat.sub_self, advance_row, hm12, if_false, byteSlice, List.take_zero,
    setHeading, append_node, allocNode, appendChild, get_node, initialCtx]
  simp [parse_md_node, hlen]

/-- Rendering the one-heading arena emits `<h`, the byte `(48 + level) mod
256`, `>`, the closing form, and a newline. -/
theorem render_hashes (N : Nat) :
    render_node 21 ⟨[⟨.MD, [], [1], 0⟩, ⟨.H, [], [], N⟩]⟩ 0 0 =
      .ok [60, 104, (48 + N) % 256, 62, 60, 47, 104, (48 + N) % 256, 62, 10] :=
  rfl

/-- C10 (corrected): the heading level is unbounded and the renderer emits
the level byte as `('0' + heading_level) mod 256` (the C `char` cast).  For
every line of exactly `N` hashes with `10 ≤ N ≤ 207` the emitted byte
`48 + N` is above `'9'`, so the tag is not a valid numeric heading (for
`N = 10` it is `"<h:>"`), and the header text is empty.  The restriction to
`N ≤ 207` is necessary: the byte wraps at 256, so for larger `N` the tag
can again be a valid numeric heading. -/
theorem claim_C10_heading_byte_overflow (N : Nat) (h10 : 10 ≤ N)
    (h207 : N ≤ 207) :
    drmd_to_html (List.replicate N 35 ++ [10]) =
      (0, [60, 104, 48 + N, 62, 60, 47, 104, 48 + N, 62, 10]) ∧
    ¬ (48 ≤ 48 + N ∧ 48 + N ≤ 57) := by
  refine ⟨?_, by omega⟩
  obtain ⟨M, rfl⟩ : ∃ M, N = M + 1 := ⟨N - 1, by omega⟩
  unfold drmd_to_html
  rw [drmdParse_hashes M]
  have hmod : (48 + (M + 1)) % 256 = 48 + (M + 1) :=
    Nat.mod_eq_of_lt (by omega)
  dsimp only
  rw [render_hashes (M + 1), hmod]

/-- Witness for C10 (corrected): ten hashes render to `"<h:></h:>\n"`
(byte 58 = `':'`), which is not a numeric heading tag. -/
theorem claim_C10_heading_byte_overflow_witness :
    drmd_to_html (List.replicate 10 35 ++ [10]) =
      (0, [60, 104, 58, 62, 60, 47, 104, 58, 62, 10]) ∧
    ¬ (48 ≤ 58 ∧ 58 ≤ 57) :=
  claim_C10_heading_byte_overflow 10 (by decide) (by decide)

/-- Counterexample to C10 as stated: a line of 257 hashes (N = 257 ≥ 10)
renders to `"<h1></h1>\n"` — byte `(48 + 257) mod 256 = 49 = '1'` — which
IS a valid numeric heading tag, refuting the claim for all `N ≥ 10`. -/
theorem claim_C10_counterexample :
    drmd_to_html (List.replicate 257 35 ++ [10]) =
      (0, [60, 104, 49, 62, 60, 47, 104, 49, 62, 10]) ∧
    10 ≤ 257 ∧ 48 ≤ 49 ∧ 49 ≤ 57 :=
  ⟨rfl, by omega⟩
